import Mathlib

/-!
# Verification of the ywsd routing engine core

Shallow embedding of the routing-relevant parts of the `ywsd` repository:

* `ywsd/routing_tree.py` — `CallTarget`, `IntermediateRoutingResult`,
  `RoutingTreeDiscoveryVisitor`, `YateRoutingGenerationVisitor`, `RoutingTree`
* `ywsd/busy_cache.py` — `PythonDictBusyCache`, `RedisBusyCache`
* `ywsd/stage1.py` — `RoutingTask.routing_job`
* `ywsd/stage2.py` — `RoutingTask._calculate_stage2_routing` / `routing_job`

Python dictionaries with string keys are embedded as association lists with
in-place update semantics (`Params.set` replaces the value of an existing key,
keeping insertion order, and appends otherwise, as CPython dicts do).
Fallible Python code (uncaught exceptions) is embedded with `Option`: a `none`
result means the corresponding Python raises.
-/

set_option autoImplicit false

namespace Ywsd

/-- String-keyed parameter dictionary of a `CallTarget`
(`CallTarget.parameters` in `routing_tree.py`); values are always strings
there.  Insertion-ordered association list with CPython dict semantics. -/
abbrev Params := List (String × String)

/-- `d[k] = v` on a CPython dict: overwrite in place if the key exists,
append otherwise. -/
def Params.set (ps : Params) (k v : String) : Params :=
  match ps with
  | [] => [(k, v)]
  | (k', v') :: rest =>
      if k' = k then (k', v) :: rest else (k', v') :: Params.set rest k v

/-- `d.get(k)`: first (and only, since `set` never duplicates) binding. -/
def Params.get? (ps : Params) (k : String) : Option String :=
  match ps with
  | [] => none
  | (k', v') :: rest => if k' = k then some v' else Params.get? rest k

/-- `d.update(other)`: `set` every binding of `other` in order
(`dict.update` iterates the argument and assigns each key). -/
def Params.update (ps other : Params) : Params :=
  other.foldl (fun acc kv => acc.set kv.1 kv.2) ps

/-- `CallTarget` (`routing_tree.py:232`): a dial string plus parameters. -/
structure CallTarget where
  target : String
  parameters : Params
  deriving DecidableEq

/-- `CallTarget.is_separator` (`routing_tree.py:249`):
`self.target.startswith("|")`, i.e. the first character is `'|'`. -/
def CallTarget.is_separator (t : CallTarget) : Bool :=
  t.target.data.head? = some '|'

/-- Tag of `IntermediateRoutingResult.Type` (`routing_tree.py:258`). -/
inductive IRRType where
  | SIMPLE
  | FORK
  | NO_ROUTE
  deriving DecidableEq

/-- `IntermediateRoutingResult` (`routing_tree.py:257`): the state set up by
`__init__` — a type tag, an optional envelope target and a fork-target list. -/
structure IntermediateRoutingResult where
  type : IRRType
  target : Option CallTarget
  fork_targets : List CallTarget
  deriving DecidableEq

namespace IntermediateRoutingResult

/-- `IntermediateRoutingResult.__init__` (`routing_tree.py:263-282`):
`fork_targets` present and non-empty gives `FORK`; present but empty gives
`NO_ROUTE` (target discarded); absent with a target gives `SIMPLE`; absent
without a target gives `NO_ROUTE`. -/
def create (target : Option CallTarget) (fork_targets : Option (List CallTarget)) :
    IntermediateRoutingResult :=
  match fork_targets with
  | some fts =>
      if fts.length > 0 then ⟨IRRType.FORK, target, fts⟩
      else ⟨IRRType.NO_ROUTE, none, []⟩
  | none =>
      match target with
      | some t => ⟨IRRType.SIMPLE, some t, []⟩
      | none => ⟨IRRType.NO_ROUTE, none, []⟩

/-- `is_simple` property (`routing_tree.py:311`). -/
def is_simple (r : IntermediateRoutingResult) : Bool :=
  r.type = IRRType.SIMPLE

/-- `is_valid` property (`routing_tree.py:315`). -/
def is_valid (r : IntermediateRoutingResult) : Bool :=
  r.type ≠ IRRType.NO_ROUTE

end IntermediateRoutingResult

/-! ## Serialization (`routing_tree.py:240-247` and `284-303`)

The serialized JSON dictionary of an `IntermediateRoutingResult` has a
`"type"` string, a `"target"` that is either a serialized `CallTarget`
dictionary or the *string* `"None"` (the Python code writes `str(None)`),
and an optional `"fork_targets"` list (omitted when the list is empty,
because `if self.fork_targets:` is false for `[]`). -/

/-- Serialized `CallTarget` (`CallTarget.serialize`). -/
structure SerCallTarget where
  target : String
  parameters : Params
  deriving DecidableEq

/-- The `"target"` entry of a serialized result: either the serialized
envelope or the literal string `"None"`. -/
inductive SerTarget where
  | noneStr
  | ct (t : SerCallTarget)
  deriving DecidableEq

/-- Serialized `IntermediateRoutingResult` (`IntermediateRoutingResult.serialize`). -/
structure SerIRR where
  type : String
  target : SerTarget
  fork_targets : Option (List SerCallTarget)
  deriving DecidableEq

/-- `str(self.type)` for the three tags. -/
def IRRType.str : IRRType → String
  | IRRType.SIMPLE => "Type.SIMPLE"
  | IRRType.FORK => "Type.FORK"
  | IRRType.NO_ROUTE => "Type.NO_ROUTE"

/-- `CallTarget.serialize` (`routing_tree.py:240`). -/
def CallTarget.serialize (t : CallTarget) : SerCallTarget :=
  ⟨t.target, t.parameters⟩

/-- `CallTarget.deserialize` (`routing_tree.py:243-247`). -/
def CallTarget.deserialize (d : SerCallTarget) : CallTarget :=
  ⟨d.target, d.parameters⟩

/-- `IntermediateRoutingResult.serialize` (`routing_tree.py:284-293`). -/
def IntermediateRoutingResult.serialize (r : IntermediateRoutingResult) : SerIRR :=
  { type := r.type.str
    target :=
      match r.target with
      | some t => SerTarget.ct t.serialize
      | none => SerTarget.noneStr
    fork_targets :=
      if r.fork_targets.isEmpty then none
      else some (r.fork_targets.map CallTarget.serialize) }

/-- `IntermediateRoutingResult.deserialize` (`routing_tree.py:295-303`).
When the `"target"` entry is the string `"None"`, the Python code calls
`CallTarget.deserialize("None")`, which evaluates `"None"["target"]` and
raises `TypeError`; that crash is the `none` result.  Otherwise the
constructor is invoked with `fork_targets` always a list (possibly empty). -/
def IntermediateRoutingResult.deserialize (d : SerIRR) :
    Option IntermediateRoutingResult :=
  match d.target with
  | SerTarget.noneStr => none
  | SerTarget.ct t =>
      let fts := (d.fork_targets.getD []).map CallTarget.deserialize
      some (IntermediateRoutingResult.create (some (CallTarget.deserialize t)) (some fts))

/-! ## Busy cache (`busy_cache.py`)

Counter state is a total function from extension to `Int`, the image of the
`defaultdict(lambda: 0)` of `PythonDictBusyCache` and of the redis hash of
`RedisBusyCache` (`HINCRBY` creates absent fields at `0`).  A call-detail
event is an `initialize` or `finalize` for one extension. -/

/-- A `call.cdr` event as consumed by `_handle_msg_task`
(`busy_cache.py:36-43`). -/
inductive CdrEvent where
  | init (extension : String)
  | fin (extension : String)
  deriving DecidableEq

/-- The two busy-cache variants. -/
inductive BusyVariant where
  | pyDict
  | redis
  deriving DecidableEq

/-- One event applied to a counter state.

* `PythonDictBusyCache._cdr_init` (`busy_cache.py:66`): `+= 1`.
* `PythonDictBusyCache._cdr_finalize` (`busy_cache.py:70-73`): decrement
  only when the counter is positive.
* `RedisBusyCache._cdr_init` (`busy_cache.py:86-89`): `HINCRBY +1`.
* `RedisBusyCache._cdr_finalize` (`busy_cache.py:91-94`): `HINCRBY -1`,
  unconditionally. -/
def busyStep (v : BusyVariant) (c : String → Int) : CdrEvent → (String → Int)
  | CdrEvent.init e => fun x => if x = e then c x + 1 else c x
  | CdrEvent.fin e =>
      match v with
      | BusyVariant.pyDict => fun x => if x = e then (if c x > 0 then c x - 1 else c x) else c x
      | BusyVariant.redis => fun x => if x = e then c x - 1 else c x

/-- Counter state after a sequence of events, starting from the all-zero
state (fresh `defaultdict` / empty redis hash). -/
def busyRun (v : BusyVariant) (evs : List CdrEvent) : String → Int :=
  evs.foldl (busyStep v) (fun _ => 0)

/-- `is_busy` (`busy_cache.py:75-76` and `96-99`): both variants report busy
iff the counter is strictly positive (for redis, an absent field reports not
busy, matching counter `0` in the total-function state). -/
def busyIsBusy (c : String → Int) (e : String) : Bool :=
  c e > 0

/-! ## Discovery visitor (`routing_tree.py:149-229`)

`RoutingTreeDiscoveryVisitor._visit` walks the extension rows of the
database.  Rows are embedded as `DExt`; the database as total functions
`exts : Nat → DExt` (primary key lookup; `load_forwarding_extension` relies
on the `fwd_correct` foreign-key constraint, see `objects.py:285-288` and
the comment at `objects.py:429`) and `ranks : Nat → List (List DRankMember)`
(the rank/member join of `populate_fork_ranks`, ranks ordered by `index`).

`_visit(node, depth, path)` recurses with `depth + 1` and stops whenever
`depth >= max_depth`; we parametrize instead by the remaining budget
`fuel = max_depth - depth`, so the `depth >= max_depth` guard is the
`fuel = 0` case and a recursive call at `depth + 1` runs at `fuel - 1`.
`discover_tree` corresponds to `fuel = max_depth` (default `10`).

The visitor's in-memory mutations (`forwarding_mode = DISABLED`,
`member.active = False`) only reshape the tree later fed to the routing
generator; they never influence which nodes discovery itself visits, so the
embedding returns the observable outcome: the `failed`/`pruned` flags, the
nodes that logged at ERROR, and the list of recursive calls made (child
extension-number together with the `path_extensions_local` passed down). -/

/-- `Extension.Type` (`objects.py:317`). -/
inductive ExtType where
  | SIMPLE
  | MULTIRING
  | GROUP
  | EXTERNAL
  | TRUNK
  deriving DecidableEq

/-- `Extension.ForwardingMode` (`objects.py:324`). -/
inductive FwdMode where
  | DISABLED
  | ENABLED
  | ON_BUSY
  | ON_UNAVAILABLE
  deriving DecidableEq

/-- `ForkRank.Mode` (`objects.py:535`). -/
inductive RankMode where
  | DEFAULT
  | NEXT
  | DROP
  deriving DecidableEq

/-- `ForkRank.RankMemberType` (`objects.py:540`). -/
inductive RankMemberType where
  | DEFAULT
  | AUXILIARY
  | PERSISTENT
  deriving DecidableEq

/-- An `Extension` row as discovery reads it. -/
structure DExt where
  id : Nat
  extension : String
  etype : ExtType
  forwarding_mode : FwdMode
  forwarding_delay : Option Int
  forwarding_extension_id : Option Nat
  deriving DecidableEq

/-- A `ForkRankMember` row joined with nothing but its `active` flag and the
referenced extension id (`populate_fork_ranks`, `objects.py:436-468`). -/
structure DRankMember where
  active : Bool
  extId : Nat
  deriving DecidableEq

/-- The relational store seen by discovery. -/
structure DDB where
  exts : Nat → DExt
  ranks : Nat → List (List DRankMember)

/-- Observable outcome of a `_visit` call: the `_failed` / `_pruned` flags,
the extension-numbers of nodes that received an ERROR routing log, and every
recursive `_visit` invocation as `(child extension-number, path passed)`. -/
structure DVisitResult where
  failed : Bool
  pruned : Bool
  errorLog : List String
  calls : List (String × List String)
  deriving DecidableEq

namespace DVisitResult

def empty : DVisitResult := ⟨false, false, [], []⟩

/-- Sequential composition of two visit outcomes. -/
def merge (a b : DVisitResult) : DVisitResult :=
  ⟨a.failed || b.failed, a.pruned || b.pruned, a.errorLog ++ b.errorLog,
    a.calls ++ b.calls⟩

end DVisitResult

/-- The shared guard-and-recurse step for a candidate child (forwarding
extension at `routing_tree.py:195-208`, rank member at `215-229`): recurse
when the child's extension-number is not on the local path, otherwise set
`_pruned` and log a warning. -/
def dVisitChild (ih : DExt → List String → DVisitResult) (lp : List String)
    (c : DExt) : DVisitResult :=
  if c.extension ∈ lp then { DVisitResult.empty with pruned := true }
  else
    let sub := ih c lp
    { sub with calls := (c.extension, lp) :: sub.calls }

/-- The member loop of `_visit` (`routing_tree.py:209-229`): inactive
members are skipped. -/
def dMembersGo (db : DDB) (ih : DExt → List String → DVisitResult)
    (lp : List String) : List DRankMember → DVisitResult
  | [] => DVisitResult.empty
  | m :: ms =>
      (if m.active then dVisitChild ih lp (db.exts m.extId) else DVisitResult.empty).merge
        (dMembersGo db ih lp ms)

/-- The rank loop of `_visit`. -/
def dRanksGo (db : DDB) (ih : DExt → List String → DVisitResult)
    (lp : List String) : List (List DRankMember) → DVisitResult
  | [] => DVisitResult.empty
  | r :: rs => (dMembersGo db ih lp r).merge (dRanksGo db ih lp rs)

/-- Body of `_visit` below the depth guard (`routing_tree.py:180-229`),
parametric in the interpretation `ih` of the recursive calls. -/
def dVisitStep (db : DDB) (ih : DExt → List String → DVisitResult)
    (node : DExt) (path : List String) : DVisitResult :=
  let lp := path ++ [node.extension]
  let fwd : Option DExt :=
    if node.etype ≠ ExtType.EXTERNAL ∧ node.forwarding_mode ≠ FwdMode.DISABLED then
      node.forwarding_extension_id.map db.exts
    else none
  let ranks : List (List DRankMember) :=
    if (node.etype = ExtType.GROUP ∨ node.etype = ExtType.MULTIRING) ∧
        (node.forwarding_mode ≠ FwdMode.ENABLED ∨ 0 < node.forwarding_delay.getD 0) then
      db.ranks node.id
    else []
  let fwdRes :=
    match fwd with
    | some f => dVisitChild ih lp f
    | none => DVisitResult.empty
  fwdRes.merge (dRanksGo db ih lp ranks)

/-- `_visit` (`routing_tree.py:170-229`) with the remaining depth budget as
fuel.  `fuel = 0` is `depth >= self._max_depth`: mark `_failed`, log at
ERROR on the node, return without descending. -/
def dVisit (db : DDB) : Nat → DExt → List String → DVisitResult
  | 0 => fun node _ => ⟨true, false, [node.extension], []⟩
  | fuel + 1 => dVisitStep db (dVisit db fuel)

/-- `RoutingTreeDiscoveryVisitor.discover_tree` (`routing_tree.py:165-168`)
with the default `max_depth = 10`: visit the root at depth `0` with the
excluded targets as initial path. -/
def discoverTree (db : DDB) (root : DExt) (excluded : List String) : DVisitResult :=
  dVisit db 10 root excluded

/-! ## Routing generation (`YateRoutingGenerationVisitor`, `routing_tree.py:320-571`)

The generator runs on the in-memory tree left behind by discovery: every
node owns its populated fork ranks (each member carrying its own subtree)
and its populated forwarding extension.  That tree is embedded as `GTree`.

`_visit` records each node's result into the diagnostic `_routing_results`
map, which feeds nothing else; the embedding omits it and keeps the
observable state: the `_lateroute_cache` map (`RouteCache`), threaded
through the computation in program order.

Python exceptions (`RoutingError`, and the `AttributeError`/`TypeError`
crashes possible on `None` fields) abort the whole visit; they are the
`none` outcome.  Recursion is driven by explicit fuel (the Python recursion
is bounded by the finite discovered tree); every claim about generation is
conditional on the visit returning a value. -/

/-- The fields of an `Extension` that generation reads. -/
structure GInfo where
  id : Nat
  extension : String
  etype : ExtType
  forwarding_mode : FwdMode
  forwarding_delay : Option Int
  yate_id : Option Nat
  deriving DecidableEq

/-- A discovered extension subtree: node fields, fork ranks (mode, delay,
members as (rank-member type, active flag, member subtree)) and the
populated forwarding extension. -/
inductive GTree where
  | node : GInfo → List (RankMode × Option Int × List (RankMemberType × Bool × GTree)) →
      Option GTree → GTree

/-- Info record of the root node. -/
def GTree.info : GTree → GInfo
  | GTree.node i _ _ => i

/-- A `Yate` row (`objects.py:182-191`): the fields used by the generator. -/
structure YateInfo where
  hostname : String
  voip_listener : String
  deriving DecidableEq

/-- Per-run generator environment: the local yate id, the yates dictionary
(`Yate.load_yates_dict`; total here, matching the foreign-key constraint on
`Extension.yate_id`) and the fresh `_x_eventphone_id` uuid hex. -/
structure GenEnv where
  localYateId : Nat
  yates : Nat → YateInfo
  uuid : String

/-- The `_lateroute_cache` dictionary: deferred-route string to result. -/
abbrev RouteCache := List (String × IntermediateRoutingResult)

/-- CPython dict assignment on the cache map. -/
def RouteCache.set (c : RouteCache) (k : String) (v : IntermediateRoutingResult) :
    RouteCache :=
  match c with
  | [] => [(k, v)]
  | (k', v') :: rest =>
      if k' = k then (k', v) :: rest else (k', v') :: RouteCache.set rest k v

/-- Key lookup on the cache map. -/
def RouteCache.get? (c : RouteCache) (k : String) : Option IntermediateRoutingResult :=
  match c with
  | [] => none
  | (k', v') :: rest => if k' = k then some v' else RouteCache.get? rest k

/-- `_make_calltarget` (`routing_tree.py:340-346`): stamp the two default
parameters onto the (possibly fresh) parameter dict. -/
def makeCalltarget (env : GenEnv) (target : String) (ps : Params) : CallTarget :=
  ⟨target, (ps.set "x_eventphone_id" env.uuid).set "osip_X-Eventphone-Id" env.uuid⟩

/-- `_cache_intermediate_result` (`routing_tree.py:348-350`): store non-simple
results under their envelope target string.  A non-simple result without an
envelope (`NO_ROUTE`) dereferences `None.target` and raises. -/
def cacheIntermediateResult (c : RouteCache) (r : IntermediateRoutingResult) :
    Option RouteCache :=
  if r.is_simple then some c
  else
    match r.target with
    | some t => some (c.set t.target r)
    | none => none

/-- `generate_simple_routing_target` (`routing_tree.py:517-540`).  `none` is
the `RoutingError("failure", ...)` raised when a non-external extension has
no `yate_id`. -/
def generateSimpleRoutingTarget (env : GenEnv) (i : GInfo) : Option CallTarget :=
  if i.etype = ExtType.EXTERNAL then
    some (makeCalltarget env ("lateroute/" ++ i.extension) [("eventphone_stage2", "1")])
  else
    match i.yate_id with
    | none => none
    | some y =>
        if y = env.localYateId then
          some (makeCalltarget env ("lateroute/" ++ i.extension) [("eventphone_stage2", "1")])
        else
          some (makeCalltarget env
            ("sip/sip:" ++ i.extension ++ "@" ++ (env.yates y).hostname)
            [("oconnection_id", (env.yates y).voip_listener)])

/-- `generate_node_route_string` / `generate_deferred_routestring`
(`routing_tree.py:566-571`). -/
def generateDeferredRoutestring (env : GenEnv) (path : List Nat) : String :=
  "lateroute/stage1-" ++ env.uuid ++ "-" ++ String.intercalate "-" (path.map toString)

/-- Python's `"{}".format(delay)` on the optional rank delay: `None` prints
as `"None"` (the `fwd_delay_correct`/`delay_correct` DB constraints make the
`None` case unreachable for timed ranks). -/
def fmtDelay : Option Int → String
  | some d => toString d
  | none => "None"

/-- `node.immediate_forward` (`objects.py:470-475`): forwarding enabled with
delay `0` (`None == 0` is false in Python, hence `some 0` exactly). -/
def GInfo.immediate_forward (i : GInfo) : Bool :=
  i.forwarding_mode = FwdMode.ENABLED ∧ i.forwarding_delay = some 0

/-- `has_active_group_members` (`objects.py:477-482`) on embedded ranks. -/
def hasActiveGroupMembers
    (ranks : List (RankMode × Option Int × List (RankMemberType × Bool × GTree))) : Bool :=
  ranks.any (fun r => r.2.2.any (fun m => m.2.1))

/-- `node_has_simple_routing` (`routing_tree.py:488-515`), specialized to
nodes that are not immediate forwards — the only way the generation visitor
calls it, since `_visit_for_route_calculation` dispatches the immediate
forward beforehand (`routing_tree.py:367-368`). -/
def nodeHasSimpleRouting (i : GInfo)
    (ranks : List (RankMode × Option Int × List (RankMemberType × Bool × GTree))) : Bool :=
  if i.etype = ExtType.EXTERNAL then true
  else if i.etype = ExtType.SIMPLE then i.forwarding_mode = FwdMode.DISABLED
  else if i.etype = ExtType.MULTIRING then
    ¬ hasActiveGroupMembers ranks ∧ i.forwarding_mode = FwdMode.DISABLED
  else false

/-- `member.type.fork_calltype` (`objects.py:549-551`): the lower-case name. -/
def RankMemberType.fork_calltype : RankMemberType → String
  | RankMemberType.DEFAULT => "default"
  | RankMemberType.AUXILIARY => "auxiliary"
  | RankMemberType.PERSISTENT => "persistent"

/-- The member loop of one fork rank (`routing_tree.py:413-431`): visit each
active member, skip invalid routes, write `fork.calltype` for special member
types (the cached copy shares the member route's envelope object, so the
parameter lands in both), append the member target, cache the result. -/
def membersLoop (ih : GTree → RouteCache → Option (IntermediateRoutingResult × RouteCache)) :
    List (RankMemberType × Bool × GTree) → List CallTarget → RouteCache →
      Option (List CallTarget × RouteCache)
  | [], fts, cache => some (fts, cache)
  | (mt, act, mtree) :: rest, fts, cache =>
      if act then
        match ih mtree cache with
        | none => none
        | some (res, cache1) =>
            if res.is_valid then
              match res.target with
              | none => none
              | some tgt =>
                  let tgt' :=
                    if mt ≠ RankMemberType.DEFAULT then
                      ⟨tgt.target, tgt.parameters.set "fork.calltype" mt.fork_calltype⟩
                    else tgt
                  let res' := { res with target := some tgt' }
                  match cacheIntermediateResult cache1 res' with
                  | none => none
                  | some cache2 => membersLoop ih rest (fts ++ [tgt']) cache2
            else membersLoop ih rest fts cache1
      else membersLoop ih rest fts cache

/-- Separator construction of `routing_tree.py:382-398`: the separator
string, the updated accumulated delay and the (possibly rewritten)
forwarding mode.  A timed rank with `delay = None` raises at
`accumulated_delay += rank.delay` (`none` here). -/
def sepCompute (fm : FwdMode) (mode : RankMode) (delay : Option Int) (acc : Int) :
    Option (String × Int × FwdMode) :=
  match mode with
  | RankMode.DROP =>
      match delay with
      | none => none
      | some d => some ("|drop=" ++ toString d, acc + d, fm)
  | RankMode.NEXT =>
      match delay with
      | none => none
      | some d => some ("|next=" ++ toString d, acc + d, fm)
  | RankMode.DEFAULT =>
      some ("|", acc, if fm = FwdMode.ENABLED then FwdMode.DISABLED else fm)

/-- The break test of `routing_tree.py:400-410`; comparing against a `None`
forwarding delay would raise in Python, but forwarding enabled implies a
non-null delay by the `fwd_delay_correct` constraint. -/
def breakCheck (fm : FwdMode) (fdelay : Option Int) (acc : Int) : Option Bool :=
  if fm = FwdMode.ENABLED then
    match fdelay with
    | none => none
    | some fd => some (decide (acc ≥ fd))
  else some false

/-- `if fork_targets and fork_targets[-1].target == "|": del fork_targets[-1]`
(`routing_tree.py:433-439`). -/
def dropEmptyDefaultRank (fts : List CallTarget) : List CallTarget :=
  match fts.getLast? with
  | some t => if t.target = "|" then fts.dropLast else fts
  | none => fts

/-- Loop state of the fork-rank iteration: the fork-target list, the
accumulated delay, the node's (mutable) forwarding mode and the cache. -/
structure RankLoopSt where
  fts : List CallTarget
  acc : Int
  fm : FwdMode
  cache : RouteCache
  deriving DecidableEq

/-- The rank loop of `_visit_for_route_calculation` (`routing_tree.py:379-439`).
A separator is produced only when `fork_targets` is already non-empty; the
break on a satisfied time-based forward abandons the remaining ranks with
the state accumulated so far. -/
def ranksLoop (ih : GTree → RouteCache → Option (IntermediateRoutingResult × RouteCache))
    (fdelay : Option Int) :
    List (RankMode × Option Int × List (RankMemberType × Bool × GTree)) → RankLoopSt →
      Option RankLoopSt
  | [], st => some st
  | (mode, delay, members) :: rest, st =>
      if st.fts.isEmpty then
        match membersLoop ih members st.fts st.cache with
        | none => none
        | some (fts2, cache2) =>
            ranksLoop ih fdelay rest
              { st with fts := dropEmptyDefaultRank fts2, cache := cache2 }
      else
        match sepCompute st.fm mode delay st.acc with
        | none => none
        | some (sep, acc', fm') =>
            match breakCheck fm' fdelay acc' with
            | none => none
            | some true => some { st with acc := acc', fm := fm' }
            | some false =>
                match membersLoop ih members (st.fts ++ [⟨sep, []⟩]) st.cache with
                | none => none
                | some (fts2, cache2) =>
                    ranksLoop ih fdelay rest
                      ⟨dropEmptyDefaultRank fts2, acc', fm', cache2⟩

/-- The `MULTIRING`/`SIMPLE` self-target insertion (`routing_tree.py:441-456`):
a timed first rank contributes its separator in front, then the simple
routing target of the node itself is put at the head. -/
def multiringInsert (env : GenEnv) (i : GInfo)
    (ranks : List (RankMode × Option Int × List (RankMemberType × Bool × GTree)))
    (fts : List CallTarget) : Option (List CallTarget) :=
  if i.etype = ExtType.MULTIRING ∨ i.etype = ExtType.SIMPLE then
    let fts1 :=
      match ranks.head? with
      | some (mode, delay, _) =>
          match mode with
          | RankMode.NEXT => CallTarget.mk ("|next=" ++ fmtDelay delay) [] :: fts
          | RankMode.DROP => CallTarget.mk ("|drop=" ++ fmtDelay delay) [] :: fts
          | RankMode.DEFAULT => fts
      | none => fts
    match generateSimpleRoutingTarget env i with
    | none => none
    | some st => some (st :: fts1)
  else some fts

/-- The `ON_BUSY` stamping (`routing_tree.py:459-463`): write
`osip_X-No-Call-Wait = 1` on every non-separator target collected so far
(the forwarding target is appended afterwards and is not stamped). -/
def onBusyStamp (fm : FwdMode) (fts : List CallTarget) : List CallTarget :=
  if fm = FwdMode.ON_BUSY then
    fts.map (fun t =>
      if ¬ t.is_separator then ⟨t.target, t.parameters.set "osip_X-No-Call-Wait" "1"⟩
      else t)
  else fts

/-- The non-immediate forward handling (`routing_tree.py:465-479`): visit the
forwarding extension, append `|drop=<forwarding_delay - accumulated_delay>`
(forwarding enabled) or the bare `|` (on-busy / on-unavailable), append the
forward target, cache the forward result.  A `NO_ROUTE` forward makes
`_cache_intermediate_result` dereference a `None` envelope and raise. -/
def fwdPhase (ih : GTree → RouteCache → Option (IntermediateRoutingResult × RouteCache))
    (i : GInfo) (fm : FwdMode) (acc : Int) (fwd : Option GTree)
    (fts : List CallTarget) (cache : RouteCache) :
    Option (List CallTarget × RouteCache) :=
  if fm = FwdMode.ENABLED ∨ fm = FwdMode.ON_BUSY ∨ fm = FwdMode.ON_UNAVAILABLE then
    match fwd with
    | none => none
    | some ft =>
        match ih ft cache with
        | none => none
        | some (fres, cache1) =>
            let sep? : Option String :=
              if fm = FwdMode.ENABLED then
                match i.forwarding_delay with
                | none => none
                | some fd => some ("|drop=" ++ toString (fd - acc))
              else some "|"
            match sep? with
            | none => none
            | some s =>
                match fres.target with
                | none => none
                | some tgt =>
                    match cacheIntermediateResult cache1 fres with
                    | none => none
                    | some cache2 => some (fts ++ [⟨s, []⟩, tgt], cache2)
  else some (fts, cache)

/-- Body of `_visit_for_route_calculation` (`routing_tree.py:360-486`),
parametric in the interpretation `ih` of recursive `_visit` calls. -/
def stepCalc (env : GenEnv)
    (ih : GTree → List Nat → RouteCache → Option (IntermediateRoutingResult × RouteCache))
    (t : GTree) (path : List Nat) (cache : RouteCache) :
    Option (IntermediateRoutingResult × RouteCache) :=
  match t with
  | GTree.node i ranks fwd =>
      let lp := path ++ [i.id]
      if i.immediate_forward then
        match fwd with
        | some ft => ih ft lp cache
        | none => none
      else if nodeHasSimpleRouting i ranks then
        match generateSimpleRoutingTarget env i with
        | none => none
        | some st => some (IntermediateRoutingResult.create (some st) none, cache)
      else
        match ranksLoop (fun s c => ih s lp c) i.forwarding_delay ranks
            ⟨[], 0, i.forwarding_mode, cache⟩ with
        | none => none
        | some st =>
            match multiringInsert env i ranks st.fts with
            | none => none
            | some fts1 =>
                let fts2 := onBusyStamp st.fm fts1
                match fwdPhase (fun s c => ih s lp c) i st.fm st.acc fwd fts2 st.cache with
                | none => none
                | some (fts3, cache3) =>
                    some (IntermediateRoutingResult.create
                      (some (makeCalltarget env (generateDeferredRoutestring env lp) []))
                      (some fts3), cache3)

/-- `_visit` (`routing_tree.py:355-358`) with fuel; the Python recursion on
the finite discovered tree corresponds to any sufficiently large fuel. -/
def visitCalc (env : GenEnv) :
    Nat → GTree → List Nat → RouteCache → Option (IntermediateRoutingResult × RouteCache)
  | 0 => fun _ _ _ => none
  | fuel + 1 => stepCalc env (visitCalc env fuel)

/-- `calculate_routing` of the visitor (`routing_tree.py:352-353`): visit the
tree root with an empty path and empty cache. -/
def calculateRouting (env : GenEnv) (fuel : Nat) (t : GTree) :
    Option (IntermediateRoutingResult × RouteCache) :=
  visitCalc env fuel t [] []

/-- `generate_trunk_routing` (`routing_tree.py:542-564`): a simple target
using the dialed number; `none` is the `RoutingError` on a `NULL` yate id. -/
def generateTrunkRouting (env : GenEnv) (i : GInfo) (dialed : String) :
    Option IntermediateRoutingResult :=
  match i.yate_id with
  | none => none
  | some y =>
      if y = env.localYateId then
        some (IntermediateRoutingResult.create
          (some (makeCalltarget env ("lateroute/" ++ dialed) [("eventphone_stage2", "1")]))
          none)
      else
        some (IntermediateRoutingResult.create
          (some (makeCalltarget env ("sip/sip:" ++ dialed ++ "@" ++ (env.yates y).hostname)
            [("oconnection_id", (env.yates y).voip_listener)]))
          none)

/-! ## `RoutingTree.calculate_routing` (`routing_tree.py:38-119`)

`_calculate_main_routing` picks tree generation or trunk routing and raises
`RoutingError("noroute")` on an invalid result; `_provide_ringback`
optionally injects the early-media leg; `_populate_source_and_target_
parameters` merges the caller parameters into the envelope and into every
cached sub-plan.

Two Python aliasing effects are made explicit here:

* each cached sub-plan's envelope `CallTarget` is *the same object* as the
  corresponding `lateroute/stage1-…` entry inside its parent's fork-target
  list (`membersLoop`/`fwdPhase` append `member_route.target` and cache
  `member_route`), so the global parameter update writes through to those
  fork-list entries; deferred-route strings are unique per run, so "same
  object" is exactly "target string is a key of the cache";
* in the ringback conversion of a Simple result, the new `fork` envelope is
  built with `self.routing_result.target.parameters` — the same dict object
  as the remaining leg's — so the update writes through to that leg. -/

/-- `_make_ringback_target` (`routing_tree.py:110-119`). -/
def makeRingbackTarget (path : String) : CallTarget :=
  ⟨"wave/play/" ++ path,
    [("fork.calltype", "persistent"), ("fork.autoring", "true"),
      ("fork.automessage", "call.progress")]⟩

/-- `_provide_ringback` (`routing_tree.py:62-86`), applied when the root has
a ringback id whose `.slin` file exists (the `rb` path).  Returns the result
and whether the Simple-to-Fork conversion happened.  The conversion reads
`self.routing_result.target.parameters`; a Simple result always has a
target, the impossible `none` case is a crash. -/
def provideRingback (rb : Option String) (r : IntermediateRoutingResult) :
    Option (IntermediateRoutingResult × Bool) :=
  match rb with
  | none => some (r, false)
  | some p =>
      if r.is_simple then
        match r.target with
        | none => none
        | some t =>
            some (IntermediateRoutingResult.create
              (some ⟨"fork", t.parameters⟩)
              (some [makeRingbackTarget p, t]), true)
      else
        some ({ r with fork_targets := makeRingbackTarget p :: r.fork_targets }, false)

/-- `t.parameters.update(ps)` on one call target. -/
def updateTargetParams (t : CallTarget) (ps : Params) : CallTarget :=
  ⟨t.target, t.parameters.update ps⟩

/-- `_populate_parameters_global` (`routing_tree.py:88-91`) together with the
write-through aliasing described above: the envelope of the main result and
of every cache entry is updated directly; fork-list entries are updated
exactly when their target string is a cache key (those entries are the
aliased envelope objects). -/
def populateParametersGlobal (ps : Params) (r : IntermediateRoutingResult)
    (cache : RouteCache) : IntermediateRoutingResult × RouteCache :=
  let keys := cache.map Prod.fst
  let updFts := fun (fts : List CallTarget) =>
    fts.map (fun t => if keys.contains t.target then updateTargetParams t ps else t)
  let updIRR := fun (x : IntermediateRoutingResult) =>
    { x with target := x.target.map (fun t => updateTargetParams t ps),
             fork_targets := updFts x.fork_targets }
  (updIRR r, cache.map (fun kv => (kv.1, updIRR kv.2)))

/-- After a ringback conversion, the second leg's parameter dict is the same
object as the envelope's; re-sync it after the global update. -/
def syncRingbackAlias (r : IntermediateRoutingResult) : IntermediateRoutingResult :=
  match r.target with
  | some envT =>
      match r.fork_targets with
      | [rbLeg, leg] => { r with fork_targets := [rbLeg, ⟨leg.target, envT.parameters⟩] }
      | _ => r
  | none => r

/-- Python `"{}".format(x)` on an optional string. -/
def fmtOptStr : Option String → String
  | some s => s
  | none => "None"

/-- `_populate_source_and_target_parameters` (`routing_tree.py:93-108`): the
merged parameter dict (the source parameters, `calledname` from the target's
name, and the group `callername` rewrite). -/
def populatedSourceTargetParams (sourceParams : Params) (targetType : ExtType)
    (targetName targetShortName sourceName : Option String) : Params :=
  let p1 :=
    match targetName with
    | some n => sourceParams.set "calledname" n
    | none => sourceParams
  match (if targetType = ExtType.GROUP then targetShortName else none) with
  | some short =>
      let callername := (sourceParams.get? "callername").getD (fmtOptStr sourceName)
      p1.set "callername" ("[" ++ short ++ "] " ++ callername)
  | none => p1

/-- `_calculate_main_routing` (`routing_tree.py:50-60`): trunk targets go
through `generate_trunk_routing` with the dialed number, everything else
through the generation visitor; an invalid main result raises
`RoutingError("noroute")`. -/
def calculateMainRouting (env : GenEnv) (fuel : Nat) (t : GTree) (dialed : String) :
    Option (IntermediateRoutingResult × RouteCache) :=
  match
    (if t.info.etype = ExtType.TRUNK then
      (generateTrunkRouting env t.info dialed).map (fun r => (r, ([] : RouteCache)))
    else calculateRouting env fuel t) with
  | none => none
  | some (r, cache) => if r.is_valid then some (r, cache) else none

/-- `RoutingTree.calculate_routing` (`routing_tree.py:38-45`): main routing,
ringback injection, parameter population. -/
def routingTreeCalculate (env : GenEnv) (fuel : Nat) (t : GTree) (dialed : String)
    (rb : Option String) (sourceParams : Params)
    (targetName targetShortName sourceName : Option String) :
    Option (IntermediateRoutingResult × RouteCache) :=
  match calculateMainRouting env fuel t dialed with
  | none => none
  | some (r, cache) =>
      match provideRingback rb r with
      | none => none
      | some (r1, conv) =>
          let ps := populatedSourceTargetParams sourceParams t.info.etype
            targetName targetShortName sourceName
          let rc := populateParametersGlobal ps r1 cache
          some ((if conv then syncRingbackAlias rc.1 else rc.1), rc.2)

/-! ## Yate messages (`yate.protocol.Message`)

Message parameter values can be `None` in Python (e.g. a header copied from
an absent parameter), so message params are embedded as an association list
with `Option String` values.  `Msg.get?` is Python's `params.get(k)`, which
returns `None` both for an absent key and for a key bound to `None`. -/

/-- A yate message: parameter dict and return value. -/
structure Msg where
  params : List (String × Option String)
  return_value : Option String
  deriving DecidableEq

/-- Raw key lookup: distinguishes an absent key from a key bound to `None`. -/
def Msg.lookupRaw (m : Msg) (k : String) : Option (Option String) :=
  match m.params.find? (fun kv => kv.1 = k) with
  | some kv => some kv.2
  | none => none

/-- Python `msg.params.get(k)`. -/
def Msg.get? (m : Msg) (k : String) : Option String :=
  (m.lookupRaw k).bind id

/-- CPython dict assignment on message parameter lists. -/
def MsgParams.set : List (String × Option String) → String → Option String →
    List (String × Option String)
  | [], k, v => [(k, v)]
  | (k', v') :: rest, k, v =>
      if k' = k then (k', v) :: rest else (k', v') :: MsgParams.set rest k v

/-- Python `msg.params[k] = v`. -/
def Msg.set (m : Msg) (k : String) (v : Option String) : Msg :=
  { m with params := MsgParams.set m.params k v }

/-! ## Stage 2 (`stage2.py`) -/

/-- A `users` row as stage 2 reads it (`objects.py:33-65`).  The table has no
`static_target` column and `User.FIELDS_PLAIN` does not load one, which is
why the `type == "static"` branch of stage 2 raises `AttributeError`. -/
structure S2User where
  username : String
  utype : String
  trunk : Bool
  call_waiting : Bool
  inuse : Int
  deriving DecidableEq

/-- A `registrations` row (`objects.py:113-144`). -/
structure S2Location where
  location : String
  oconnection_id : String
  deriving DecidableEq

/-- The stage-2 database: `User.load_user`, `User.load_trunk` (longest-prefix
lookup, `none` covering both no match and the multiple-match
misconfiguration), `Registration.load_locations_for` (keyed by username) and
`ActiveCall.is_active_call` on (username, `X-Eventphone-Id` value, which
may be SQL `NULL`). -/
structure S2DB where
  user : String → Option S2User
  trunkUser : String → Option S2User
  locations : String → List S2Location
  activeCall : String → Option String → Bool

/-- Python `str.replace(old, new, 1)`: replace the first occurrence only. -/
def replaceFirst (s old new : String) : String :=
  match s.splitOn old with
  | [] => s
  | [x] => x
  | x :: rest => x ++ new ++ String.intercalate old rest

/-- `Registration.call_target` (`objects.py:146-155`): trunk users get the
`user@` part of the location rewritten to the dialed number. -/
def locationCallTarget (u : S2User) (dialed : String) (l : S2Location) : String :=
  if u.trunk = false then l.location
  else replaceFirst l.location (u.username ++ "@") (dialed ++ "@")

/-- `get_headers` (`stage2.py:18-25`) for one header name: `osip_<Header>`
falling back to `sip_<header lowercased>`. -/
def getHeader (m : Msg) (h : String) : Option String :=
  match m.get? ("osip_" ++ h) with
  | some v => some v
  | none => m.get? ("sip_" ++ h.toLower)

/-- `populate_additional_message_parameters` (`stage2.py:33-40`): stamp
`X-Eventphone-Id` (possibly `None`) and append to `copyparams`.  A
`copyparams` key bound to `None` would make `+=` raise (`none`). -/
def populateAdditionalMessageParameters (m : Msg) (hdrEv : Option String) :
    Option Msg :=
  let m1 := m.set "X-Eventphone-Id" hdrEv
  match m1.lookupRaw "copyparams" with
  | some (some v) => some (m1.set "copyparams" (some (v ++ ",X-Eventphone-Id")))
  | some none => none
  | none => some (m1.set "copyparams" (some "X-Eventphone-Id"))

/-- The fork emission loop of `stage2.py:92-96`. -/
def emitLocationsLoop (u : S2User) (dialed : String) :
    Msg → Nat → List S2Location → Msg
  | m, _, [] => m
  | m, i, l :: ls =>
      emitLocationsLoop u dialed
        ((m.set ("callto." ++ toString i) (some (locationCallTarget u dialed l))).set
          ("callto." ++ toString i ++ ".oconnection_id") (some l.oconnection_id))
        (i + 1) ls

/-- Target emission (`stage2.py:87-96`): single location or fork. -/
def emitRouting (u : S2User) (dialed : String) (m : Msg) (locs : List S2Location) : Msg :=
  if locs.length = 1 then
    match locs.head? with
    | some l =>
        { m with return_value := some (locationCallTarget u dialed l) }.set
          "oconnection_id" (some l.oconnection_id)
    | none => m
  else
    emitLocationsLoop u dialed { m with return_value := some "fork" } 1 locs

/-- Python `called.startswith("stage2-")` / `called[7:]` on character lists. -/
def stripStage2 (called : String) : String :=
  if called.data.take 7 = "stage2-".data then ⟨called.data.drop 7⟩ else called

/-- The user/trunk lookup of `stage2.py:53-59`: `User.load_user`, falling
back to `User.load_trunk`; `none` means both raised `DoesNotExist`. -/
def stage2LookupTarget (db : S2DB) (called : String) : Option S2User :=
  match db.user called with
  | some u => some u
  | none => db.trunkUser called

/-- `_check_target_busy` (`stage2.py:42-46`): ask the busy cache when one is
configured, otherwise fall back to the user's `inuse` column. -/
def stage2TargetBusy (busyCache : Option (String → Bool)) (u : S2User) : Bool :=
  match busyCache with
  | some f => f u.username
  | none => u.inuse > 0

/-- `_calculate_stage2_routing` (`stage2.py:48-99`).  Returns
`(success, handled, message)`; `none` is an uncaught exception (the
`static` branch, see `S2User`, or a `None`-valued `copyparams`). -/
def calculateStage2Routing (db : S2DB) (busyCache : Option (String → Bool))
    (m : Msg) (called : String) : Option (Bool × Bool × Msg) :=
  let called := stripStage2 called
  match stage2LookupTarget db called with
  | none => some (false, false, m)
  | some target =>
      if target.utype = "static" then none
      else
        let locations := db.locations target.username
        if locations.isEmpty then
          some (false, true, (m.set "error" (some "offline")).set "reason" (some "offline"))
        else
          let hdrEv := getHeader m "X-Eventphone-Id"
          let hdrNW := getHeader m "X-No-Call-Wait"
          if (hdrNW = some "1" ∨ target.call_waiting = false) ∧
              stage2TargetBusy busyCache target = true then
            some (false, true, m.set "error" (some "busy"))
          else if db.activeCall called hdrEv then
            some (false, true, m.set "error" (some "busy"))
          else
            match populateAdditionalMessageParameters
                (emitRouting target called m locations) hdrEv with
            | none => none
            | some m' => some (true, true, m')

/-- Stage-2 `routing_job` (`stage2.py:127-154`) as the list of
`answer_message` calls it makes: a message without `caller` is answered
unhandled and the job returns; a missing `called` or an uncaught exception
kills the task without an answer (empty list). -/
def stage2RoutingJob (db : S2DB) (busyCache : Option (String → Bool)) (m : Msg) :
    List (Msg × Bool) :=
  match m.get? "caller" with
  | none => [(m, false)]
  | some _ =>
      match m.get? "called" with
      | none => []
      | some called =>
          match calculateStage2Routing db busyCache m called with
          | none => []
          | some (_, handled, m') => [(m', handled)]

/-! ## Stage 1 `routing_job` (`stage1.py:113-121`)

`_calculate_stage1_routing` involves the database and the whole routing
pipeline; for the control-flow of `routing_job` it is abstracted as a total
function `calc` from the `caller`/`called` parameters to the resulting
`(message, handled)` pair — total because every exception path of
`_calculate_stage1_routing` returns a message (`stage1.py:84-111`).

The embedding returns the list of `answer_message` calls.  Note that the
`caller is None` branch (`stage1.py:117-119`) answers the message but does
**not** return, so the job falls through to the routing calculation and
answers a second time. -/
def stage1RoutingJob (calcFn : Option String → Option String → Msg × Bool) (m : Msg) :
    List (Msg × Bool) :=
  let caller := m.get? "caller"
  let called := m.get? "called"
  let pre := if caller = none then [(m, false)] else []
  let res := calcFn caller called
  pre ++ [(res.1, res.2)]

/-! ## Predicates for the invariant proofs -/

/-- The good-call property an interpretation of recursive `_visit` calls has
to satisfy: every recorded call targets an extension not on its path, its
path is strictly longer than the caller's and exceeds it by at most the
fuel, and it preserves nodup-ness of paths. -/
def GoodIH (f : Nat) (ih : DExt → List String → DVisitResult) : Prop :=
  ∀ node path e q, (e, q) ∈ (ih node path).calls →
    e ∉ q ∧ path.length < q.length ∧ q.length ≤ path.length + f ∧
    ((path ++ [node.extension]).Nodup → (q ++ [e]).Nodup)

/-- Both default parameters of `_make_calltarget` are present with the run
uuid as value. -/
def uuidStamped (env : GenEnv) (ps : Params) : Prop :=
  ps.get? "x_eventphone_id" = some env.uuid ∧
  ps.get? "osip_X-Eventphone-Id" = some env.uuid

/-- A dialable (non-separator) call target stamped with the run uuid. -/
def TargetOK (env : GenEnv) (t : CallTarget) : Prop :=
  t.is_separator = false ∧ uuidStamped env t.parameters

/-- Every fork-list entry is either a parameterless separator or a
uuid-stamped dialable target. -/
def SepOrTarget (env : GenEnv) (t : CallTarget) : Prop :=
  (t.is_separator = true → t.parameters = []) ∧
  (t.is_separator = false → uuidStamped env t.parameters)

/-- Structural invariant of every result the generation visitor returns:
`NO_ROUTE` results carry no envelope; envelopes are uuid-stamped dialable
targets; fork entries are separators without parameters or uuid-stamped
targets; Fork results have a non-empty list whose last element is never the
bare `|`. -/
def ResultOK (env : GenEnv) (r : IntermediateRoutingResult) : Prop :=
  (r.type = IRRType.NO_ROUTE → r.target = none) ∧
  (∀ t, r.target = some t → TargetOK env t) ∧
  (∀ t ∈ r.fork_targets, SepOrTarget env t) ∧
  (r.type = IRRType.FORK → r.fork_targets ≠ [] ∧
    ∀ l, r.fork_targets.getLast? = some l → l.target ≠ "|")

/-- Invariant of the `_lateroute_cache`: every entry is a Fork keyed by its
envelope target string and structurally well-formed. -/
def CacheOK (env : GenEnv) (c : RouteCache) : Prop :=
  ∀ k ir, (k, ir) ∈ c →
    ir.type = IRRType.FORK ∧ (∃ tgt, ir.target = some tgt ∧ tgt.target = k) ∧
    ResultOK env ir

/-- Well-behavedness of an interpretation of recursive `_visit` calls. -/
def GenIHOK (env : GenEnv)
    (ih : GTree → RouteCache → Option (IntermediateRoutingResult × RouteCache)) : Prop :=
  ∀ s c r c', ih s c = some (r, c') → CacheOK env c → ResultOK env r ∧ CacheOK env c'

/-- Invariant of the fork-target list during and after the rank loop. -/
def FtsOK (env : GenEnv) (fts : List CallTarget) : Prop :=
  (∀ t ∈ fts, SepOrTarget env t) ∧
  (∀ l, fts.getLast? = some l → l.target ≠ "|")

/-! ## Decimal parsing (to read back `|drop=<n>` separators in C2) -/

/-- Parse a nonempty all-digit character list. -/
def parseNatChars (cs : List Char) : Option Nat :=
  go cs 0 (decide (cs ≠ []))
where
  go : List Char → Nat → Bool → Option Nat
    | [], acc, ok => if ok then some acc else none
    | c :: rest, acc, ok =>
        if c.isDigit then go rest (acc * 10 + (c.toNat - 48)) ok else none

/-- Parse an optionally `-`-signed decimal integer. -/
def parseIntChars : List Char → Option Int
  | '-' :: rest => (parseNatChars rest).map (fun n => -(n : Int))
  | cs => (parseNatChars cs).map (fun n => (n : Int))

/-- The delay of a `|drop=<n>` separator, `none` for anything else. -/
def dropSepDelay (t : CallTarget) : Option Int :=
  match t.target.data with
  | '|' :: 'd' :: 'r' :: 'o' :: 'p' :: '=' :: rest => parseIntChars rest
  | _ => none

/-- Sum of the delays of all `|drop=` separators in a list. -/
def dropDelaysSum (l : List CallTarget) : Int :=
  (l.filterMap dropSepDelay).sum

/-! ## Concrete data for witnesses and counterexamples -/

/-- Concrete discovery database for the C5 witness: group 2000 (id 1) has
member 2001 (id 2), which forwards with delay to 2002 (id 3). -/
def dWitnessDB : DDB :=
  ⟨fun i =>
      if i = 2 then ⟨2, "2001", ExtType.SIMPLE, FwdMode.ENABLED, some 5, some 3⟩
      else if i = 3 then ⟨3, "2002", ExtType.SIMPLE, FwdMode.DISABLED, none, none⟩
      else ⟨1, "2000", ExtType.GROUP, FwdMode.DISABLED, none, none⟩,
    fun i => if i = 1 then [[⟨true, 2⟩]] else []⟩

/-- Root node of the C5 witness database. -/
def dWitnessRoot : DExt := ⟨1, "2000", ExtType.GROUP, FwdMode.DISABLED, none, none⟩

/-- A concrete generator environment (uuid `u`, local yate 1). -/
def envT : GenEnv := ⟨1, fun _ => ⟨"remote", "listener"⟩, "u"⟩

/-- A leaf external extension node. -/
def extNode (ext : String) (i : Nat) : GTree :=
  GTree.node ⟨i, ext, ExtType.EXTERNAL, FwdMode.DISABLED, none, none⟩ [] none

/-- A leaf simple extension node living on the local yate. -/
def simpleNode (ext : String) (i : Nat) : GTree :=
  GTree.node ⟨i, ext, ExtType.SIMPLE, FwdMode.DISABLED, none, some 1⟩ [] none

/-- C1 counterexample, part 1: a group whose second rank has only an
inactive member, so two timed separators end up adjacent. -/
def treeC1a : GTree :=
  GTree.node ⟨1, "2000", ExtType.GROUP, FwdMode.DISABLED, none, none⟩
    [(RankMode.DEFAULT, none, [(RankMemberType.DEFAULT, true, extNode "1001" 2)]),
     (RankMode.DROP, some 5, [(RankMemberType.DEFAULT, false, extNode "1009" 9)]),
     (RankMode.DROP, some 7, [(RankMemberType.DEFAULT, true, extNode "1002" 3)])]
    none

/-- C1 counterexample, part 2: a memberless group with an on-busy forward,
whose first non-separator entry is the forwarding target. -/
def treeC1b : GTree :=
  GTree.node ⟨1, "2001", ExtType.GROUP, FwdMode.ON_BUSY, none, none⟩ []
    (some (extNode "1004" 4))

/-- C1 witness: a multiring extension with one member. -/
def treeC1w : GTree :=
  GTree.node ⟨1, "2001", ExtType.MULTIRING, FwdMode.DISABLED, none, some 1⟩
    [(RankMode.DEFAULT, none, [(RankMemberType.DEFAULT, true, simpleNode "2005" 2)])]
    none

/-- C2 counterexample: forwarding enabled with delay 10, but a `|next=4`
rank precedes the forward, so the `|drop=` delays before the forward target
sum to 6, not 10. -/
def treeC2 : GTree :=
  GTree.node ⟨1, "2099", ExtType.GROUP, FwdMode.ENABLED, some 10, none⟩
    [(RankMode.DEFAULT, none, [(RankMemberType.DEFAULT, true, extNode "1001" 2)]),
     (RankMode.NEXT, some 4, [(RankMemberType.DEFAULT, true, extNode "1002" 3)])]
    (some (extNode "2042" 5))

/-- C2 witness: forwarding enabled with delay 20 after one `|drop=5` rank;
the final separator is `|drop=15`. -/
def treeC2w : GTree :=
  GTree.node ⟨1, "2099", ExtType.GROUP, FwdMode.ENABLED, some 20, none⟩
    [(RankMode.DEFAULT, none, [(RankMemberType.DEFAULT, true, extNode "1001" 2)]),
     (RankMode.DROP, some 5, [(RankMemberType.DEFAULT, true, extNode "1002" 3)])]
    (some (extNode "2042" 5))

/-- C6 counterexample: a local simple extension with a ringback file. -/
def treeC6 : GTree := simpleNode "2002" 1

/-- C10 witness: a group whose single member is itself a group (so the
member's sub-plan is a Fork that lands in the cache). -/
def treeC10 : GTree :=
  GTree.node ⟨1, "2000", ExtType.GROUP, FwdMode.DISABLED, none, none⟩
    [(RankMode.DEFAULT, none,
      [(RankMemberType.DEFAULT, true,
        GTree.node ⟨2, "2020", ExtType.GROUP, FwdMode.DISABLED, none, none⟩
          [(RankMode.DEFAULT, none, [(RankMemberType.DEFAULT, true, extNode "2006" 3)])]
          none)])]
    none

/-! ## Helper lemmas on parameter dictionaries -/

theorem Params.get?_set_self (ps : Params) (k v : String) :
    (ps.set k v).get? k = some v := by
  induction ps with
  | nil => simp [Params.set, Params.get?]
  | cons kv rest ih =>
      obtain ⟨k', v'⟩ := kv
      by_cases h : k' = k
      · subst h
        simp [Params.set, Params.get?]
      · simp [Params.set, Params.get?, h, ih]

theorem Params.get?_set_ne (ps : Params) (k v k' : String) (h : k' ≠ k) :
    (ps.set k v).get? k' = ps.get? k' := by
  induction ps with
  | nil =>
      simp [Params.set, Params.get?]
      intro h'
      exact absurd h'.symm h
  | cons kv rest ih =>
      obtain ⟨ka, va⟩ := kv
      by_cases hk : ka = k
      · subst hk
        have : ka ≠ k' := fun hh => h (hh.symm)
        simp [Params.set, Params.get?, this]
      · by_cases hk' : ka = k'
        · subst hk'
          simp [Params.set, Params.get?, hk]
        · simp [Params.set, Params.get?, hk, hk', ih]

/-- `update` does not touch keys that the argument list never mentions. -/
theorem Params.get?_update_of_not_mem (ps other : Params) (k : String)
    (h : k ∉ other.map Prod.fst) : (ps.update other).get? k = ps.get? k := by
  induction other generalizing ps with
  | nil => simp [Params.update]
  | cons kv rest ih =>
      obtain ⟨ka, va⟩ := kv
      simp only [List.map_cons, List.mem_cons] at h
      push_neg at h
      have step : (Params.update (ps.set ka va) rest).get? k = (ps.set ka va).get? k :=
        ih (ps.set ka va) h.2
      have : Params.update ps ((ka, va) :: rest) = Params.update (ps.set ka va) rest := by
        simp [Params.update, List.foldl_cons]
      rw [this, step, Params.get?_set_ne ps ka va k h.1]

/-! ## Claim theorems -/

/-- **C9.** `IntermediateRoutingResult.__init__` with a present but empty
`fork_targets` list yields a `NO_ROUTE` value: the type tag is `NO_ROUTE`,
the stored target is `None` whatever envelope target was passed in, and
`is_valid` is false. -/
theorem irr_create_empty_fork_targets_is_noroute (target : Option CallTarget) :
    (IntermediateRoutingResult.create target (some [])).type = IRRType.NO_ROUTE ∧
    (IntermediateRoutingResult.create target (some [])).target = none ∧
    (IntermediateRoutingResult.create target (some [])).is_valid = false := by
  refine ⟨rfl, rfl, rfl⟩

/-- **C3, counterexample.**  Serialize-then-deserialize is *not* the identity
on Simple results: a Simple value serializes without a `fork_targets` key,
and deserialization then calls the constructor with an empty list, which
produces `NO_ROUTE`.  (For a `NO_ROUTE` value, deserialization crashes on
the `"None"` string; the round trip only works for Fork values.) -/
theorem irr_roundtrip_counterexample :
    (IntermediateRoutingResult.deserialize
        (IntermediateRoutingResult.serialize
          (IntermediateRoutingResult.create
            (some ⟨"lateroute/2005", [("eventphone_stage2", "1")]⟩) none)) =
      some ⟨IRRType.NO_ROUTE, none, []⟩) ∧
    (IntermediateRoutingResult.create
        (some ⟨"lateroute/2005", [("eventphone_stage2", "1")]⟩) none).type =
      IRRType.SIMPLE ∧
    (IntermediateRoutingResult.deserialize
        (IntermediateRoutingResult.serialize
          (IntermediateRoutingResult.create (none : Option CallTarget) none)) =
      none) := by
  refine ⟨by decide, rfl, by decide⟩

/-- **C3, amended.**  The round trip does hold for Fork results (the only
kind the routing cache ever serializes, see C10): deserializing the
serialization of a Fork built from an envelope target and a non-empty
fork-target list returns an equal value. -/
theorem irr_serialize_deserialize_fork_roundtrip (t : CallTarget)
    (fts : List CallTarget) (h : fts ≠ []) :
    IntermediateRoutingResult.deserialize
        (IntermediateRoutingResult.serialize
          (IntermediateRoutingResult.create (some t) (some fts))) =
      some (IntermediateRoutingResult.create (some t) (some fts)) := by
  obtain ⟨a, l, rfl⟩ : ∃ a l, fts = a :: l := by
    cases fts with
    | nil => exact absurd rfl h
    | cons a l => exact ⟨a, l, rfl⟩
  have hid : CallTarget.deserialize ∘ CallTarget.serialize = id := funext fun _ => rfl
  simp [IntermediateRoutingResult.create, IntermediateRoutingResult.serialize,
    IntermediateRoutingResult.deserialize, CallTarget.serialize, CallTarget.deserialize,
    IRRType.str, List.map_map, hid]

/-- Witness for C3 (amended): a concrete one-leg Fork round-trips. -/
theorem irr_serialize_deserialize_fork_roundtrip_witness :
    IntermediateRoutingResult.deserialize
        (IntermediateRoutingResult.serialize
          (IntermediateRoutingResult.create (some ⟨"lateroute/stage1-u-1", []⟩)
            (some [⟨"lateroute/2005", []⟩]))) =
      some (IntermediateRoutingResult.create (some ⟨"lateroute/stage1-u-1", []⟩)
        (some [⟨"lateroute/2005", []⟩])) :=
  irr_serialize_deserialize_fork_roundtrip _ _ (by decide)

/-- The per-event step of the in-memory busy cache keeps counters
nonnegative. -/
theorem busyStep_pyDict_nonneg (c : String → Int) (ev : CdrEvent)
    (h : ∀ x, 0 ≤ c x) : ∀ x, 0 ≤ busyStep BusyVariant.pyDict c ev x := by
  intro x
  have hx0 := h x
  cases ev with
  | init e =>
      by_cases hx : x = e
      · simp [busyStep, hx]
        have := h e
        omega
      · simpa [busyStep, hx] using hx0
  | fin e =>
      by_cases hx : x = e
      · subst hx
        by_cases hpos : c x > 0
        · simp [busyStep, hpos]
          omega
        · simpa [busyStep, hpos] using hx0
      · simpa [busyStep, hx] using hx0

/-- Counters of the in-memory busy cache are nonnegative after any event
sequence applied to any nonnegative start state. -/
theorem busyFoldl_pyDict_nonneg (evs : List CdrEvent) (c : String → Int)
    (h : ∀ x, 0 ≤ c x) :
    ∀ x, 0 ≤ evs.foldl (busyStep BusyVariant.pyDict) c x := by
  induction evs generalizing c with
  | nil => exact h
  | cons ev rest ih =>
      intro x
      exact ih (busyStep BusyVariant.pyDict c ev) (busyStep_pyDict_nonneg c ev h) x

/-- **C4, amended.**  All the claimed busy-counter properties hold for the
in-memory `PythonDictBusyCache`: counters stay nonnegative under every event
sequence, `finalize` acts as `max(0, counter - 1)`, an `initialize` followed
by a matching `finalize` restores the prior value, after two `initialize`s
and one `finalize` the extension still reports busy, and is-busy holds iff
the counter is positive.  (The `RedisBusyCache` decrements unconditionally
and violates the nonnegativity and `max(0, ·)` clauses — see the
counterexample.) -/
theorem busy_pyDict_cache_properties (evs : List CdrEvent) (e : String) :
    0 ≤ busyRun BusyVariant.pyDict evs e ∧
    busyStep BusyVariant.pyDict (busyRun BusyVariant.pyDict evs) (CdrEvent.fin e) e =
      max 0 (busyRun BusyVariant.pyDict evs e - 1) ∧
    busyStep BusyVariant.pyDict
        (busyStep BusyVariant.pyDict (busyRun BusyVariant.pyDict evs) (CdrEvent.init e))
        (CdrEvent.fin e) e = busyRun BusyVariant.pyDict evs e ∧
    0 < busyStep BusyVariant.pyDict
        (busyStep BusyVariant.pyDict
          (busyStep BusyVariant.pyDict (busyRun BusyVariant.pyDict evs) (CdrEvent.init e))
          (CdrEvent.init e))
        (CdrEvent.fin e) e ∧
    (busyIsBusy (busyRun BusyVariant.pyDict evs) e = true ↔
      0 < busyRun BusyVariant.pyDict evs e) := by
  have hnn : 0 ≤ busyRun BusyVariant.pyDict evs e :=
    busyFoldl_pyDict_nonneg evs (fun _ => 0) (fun _ => le_refl 0) e
  set c := busyRun BusyVariant.pyDict evs e with hc
  refine ⟨hnn, ?_, ?_, ?_, ?_⟩
  · by_cases hpos : c > 0 <;> simp [busyStep, ← hc, hpos] <;> omega
  · have h1 : 0 < c + 1 := by omega
    simp [busyStep, ← hc, h1]
  · have h2 : (0 : Int) < c + 1 + 1 := by omega
    simp [busyStep, ← hc, h2]
    omega
  · simp [busyIsBusy, ← hc]

/-- **C4, counterexample.**  The redis busy cache decrements unconditionally
(`HINCRBY busy_cache <ext> -1`, `busy_cache.py:91-94`): one `finalize` on a
fresh cache drives the counter of `"2042"` to `-1`, which is negative and is
not `max(0, 0 - 1) = 0`. -/
theorem busy_redis_counterexample :
    busyRun BusyVariant.redis [CdrEvent.fin "2042"] "2042" = -1 ∧
    ¬ (0 ≤ busyRun BusyVariant.redis [CdrEvent.fin "2042"] "2042") ∧
    busyRun BusyVariant.redis [CdrEvent.fin "2042"] "2042" ≠
      max 0 (busyRun BusyVariant.redis [] "2042" - 1) := by
  refine ⟨by decide, by decide, by decide⟩

/-- Witness for C4 (amended): the counter of `2042` is nonnegative after a
concrete init/finalize sequence. -/
theorem busy_pyDict_cache_properties_witness :
    0 ≤ busyRun BusyVariant.pyDict [CdrEvent.init "2042", CdrEvent.fin "2042"] "2042" :=
  (busy_pyDict_cache_properties [CdrEvent.init "2042", CdrEvent.fin "2042"] "2042").1

/-- Witness for C9: a concrete envelope target is discarded by the
empty-fork-list constructor. -/
theorem irr_create_empty_fork_targets_is_noroute_witness :
    (IntermediateRoutingResult.create (some ⟨"lateroute/2005", []⟩) (some [])).type =
      IRRType.NO_ROUTE :=
  (irr_create_empty_fork_targets_is_noroute (some ⟨"lateroute/2005", []⟩)).1

/-- **C8.**  Stage-1 `routing_job` on a message without `caller`
(`stage1.py:117-121`): the `caller is None` branch answers the message as
unhandled but is missing a `return`, so the job falls through, runs the
routing calculation anyway and answers a second time — for every
continuation `calcFn` the answer list has the unhandled answer *followed by*
the routing answer. -/
theorem stage1_no_caller_answers_twice
    (calcFn : Option String → Option String → Msg × Bool) (m : Msg)
    (h : m.get? "caller" = none) :
    stage1RoutingJob calcFn m =
      [(m, false),
        ((calcFn none (m.get? "called")).1, (calcFn none (m.get? "called")).2)] := by
  simp [stage1RoutingJob, h]

/-- Witness for C8: a concrete caller-less message is answered twice. -/
theorem stage1_no_caller_answers_twice_witness :
    stage1RoutingJob (fun _ _ => (⟨[("error", some "failure")], none⟩, true))
        ⟨[("called", some "2000")], none⟩ =
      [(⟨[("called", some "2000")], none⟩, false),
        (⟨[("error", some "failure")], none⟩, true)] :=
  stage1_no_caller_answers_twice _ _ (by decide)

/-! ### String and separator lemmas -/

theorem cons_data_append (p : String) (c : Char) (cs : List Char)
    (h : p.data = c :: cs) (s : String) : (p ++ s).data = c :: (cs ++ s.data) := by
  rw [String.data_append, h]
  rfl

theorem is_separator_true_iff (t : CallTarget) :
    t.is_separator = true ↔ t.target.data.head? = some '|' := by
  simp [CallTarget.is_separator]

theorem is_separator_false_iff (t : CallTarget) :
    t.is_separator = false ↔ t.target.data.head? ≠ some '|' := by
  simp [CallTarget.is_separator]

theorem TargetOK.target_ne_bar {env : GenEnv} {t : CallTarget} (h : TargetOK env t) :
    t.target ≠ "|" := by
  intro he
  exact (is_separator_false_iff t).mp h.1 (by rw [he]; rfl)

theorem sep_drop_is_separator (s : String) :
    (CallTarget.mk ("|drop=" ++ s) []).is_separator = true := by
  rw [is_separator_true_iff]
  rw [cons_data_append "|drop=" '|' "drop=".data rfl s]
  rfl

theorem sep_next_is_separator (s : String) :
    (CallTarget.mk ("|next=" ++ s) []).is_separator = true := by
  rw [is_separator_true_iff]
  rw [cons_data_append "|next=" '|' "next=".data rfl s]
  rfl

theorem sep_bar_is_separator : (CallTarget.mk "|" []).is_separator = true := rfl

theorem sep_drop_ne_bar (s : String) : ("|drop=" ++ s) ≠ "|" := by
  intro h
  have h2 := congrArg String.data h
  rw [cons_data_append "|drop=" '|' "drop=".data rfl s] at h2
  simp at h2

theorem sep_next_ne_bar (s : String) : ("|next=" ++ s) ≠ "|" := by
  intro h
  have h2 := congrArg String.data h
  rw [cons_data_append "|next=" '|' "next=".data rfl s] at h2
  simp at h2

theorem lateroute_head (s : String) : ("lateroute/" ++ s).data.head? = some 'l' := by
  rw [cons_data_append "lateroute/" 'l' "ateroute/".data rfl s]
  rfl

theorem sip_head (s : String) : ("sip/sip:" ++ s).data.head? = some 's' := by
  rw [cons_data_append "sip/sip:" 's' "ip/sip:".data rfl s]
  rfl

theorem deferred_head (env : GenEnv) (lp : List Nat) :
    (generateDeferredRoutestring env lp).data.head? = some 'l' := by
  unfold generateDeferredRoutestring
  rw [cons_data_append ("lateroute/stage1-" ++ env.uuid ++ "-") 'l' _
    (by
      rw [cons_data_append ("lateroute/stage1-" ++ env.uuid) 'l' _
        (cons_data_append "lateroute/stage1-" 'l' "ateroute/stage1-".data rfl env.uuid) "-"])]
  rfl

/-! ### Parameter-stamp lemmas -/

theorem uuidStamped_makeCalltarget (env : GenEnv) (s : String) (ps : Params) :
    uuidStamped env (makeCalltarget env s ps).parameters := by
  constructor
  · rw [makeCalltarget]
    rw [Params.get?_set_ne _ _ _ _ (by decide)]
    exact Params.get?_set_self _ _ _
  · exact Params.get?_set_self _ _ _

theorem uuidStamped_set (env : GenEnv) (ps : Params) (k v : String)
    (h1 : k ≠ "x_eventphone_id") (h2 : k ≠ "osip_X-Eventphone-Id")
    (h : uuidStamped env ps) : uuidStamped env (ps.set k v) := by
  refine ⟨?_, ?_⟩
  · rw [Params.get?_set_ne _ _ _ _ (fun hh => h1 hh.symm)]
    exact h.1
  · rw [Params.get?_set_ne _ _ _ _ (fun hh => h2 hh.symm)]
    exact h.2

theorem sip_full_head (a b : String) :
    ("sip/sip:" ++ a ++ "@" ++ b).data.head? = some 's' := by
  rw [cons_data_append ("sip/sip:" ++ a ++ "@") 's' _
    (by
      rw [cons_data_append ("sip/sip:" ++ a) 's' _
        (cons_data_append "sip/sip:" 's' "ip/sip:".data rfl a) "@"])]
  rfl

theorem generateSimpleRoutingTarget_TargetOK (env : GenEnv) (i : GInfo)
    (st : CallTarget) (h : generateSimpleRoutingTarget env i = some st) :
    TargetOK env st := by
  unfold generateSimpleRoutingTarget at h
  by_cases hext : i.etype = ExtType.EXTERNAL
  · rw [if_pos hext] at h
    cases h
    refine ⟨(is_separator_false_iff _).mpr ?_, uuidStamped_makeCalltarget env _ _⟩
    rw [makeCalltarget]
    show ("lateroute/" ++ i.extension).data.head? ≠ some '|'
    rw [lateroute_head]
    decide
  · rw [if_neg hext] at h
    cases hy : i.yate_id with
    | none =>
        rw [hy] at h
        exact Option.noConfusion h
    | some y =>
        rw [hy] at h
        dsimp only at h
        by_cases hloc : y = env.localYateId
        · rw [if_pos hloc] at h
          cases h
          refine ⟨(is_separator_false_iff _).mpr ?_, uuidStamped_makeCalltarget env _ _⟩
          rw [makeCalltarget]
          show ("lateroute/" ++ i.extension).data.head? ≠ some '|'
          rw [lateroute_head]
          decide
        · rw [if_neg hloc] at h
          cases h
          refine ⟨(is_separator_false_iff _).mpr ?_, uuidStamped_makeCalltarget env _ _⟩
          rw [makeCalltarget]
          show ("sip/sip:" ++ i.extension ++ "@" ++ (env.yates y).hostname).data.head? ≠ some '|'
          rw [sip_full_head]
          decide

theorem is_valid_iff (r : IntermediateRoutingResult) :
    r.is_valid = true ↔ r.type ≠ IRRType.NO_ROUTE := by
  simp [IntermediateRoutingResult.is_valid]

theorem is_simple_iff (r : IntermediateRoutingResult) :
    r.is_simple = true ↔ r.type = IRRType.SIMPLE := by
  simp [IntermediateRoutingResult.is_simple]

/-! ### Cache lemmas -/

theorem RouteCache.mem_set (c : RouteCache) (k : String)
    (v : IntermediateRoutingResult) (x : String × IntermediateRoutingResult)
    (h : x ∈ RouteCache.set c k v) : x = (k, v) ∨ x ∈ c := by
  induction c with
  | nil => simpa [RouteCache.set] using h
  | cons kv rest ih =>
      obtain ⟨k', v'⟩ := kv
      by_cases hk : k' = k
      · subst hk
        rw [RouteCache.set, if_pos rfl] at h
        rcases List.mem_cons.mp h with h | h
        · exact Or.inl (by simpa using h)
        · exact Or.inr (List.mem_cons_of_mem _ h)
      · rw [RouteCache.set, if_neg hk] at h
        rcases List.mem_cons.mp h with h | h
        · exact Or.inr (by simp [h])
        · rcases ih h with h | h
          · exact Or.inl h
          · exact Or.inr (List.mem_cons_of_mem _ h)

/-- Storing a well-formed non-simple result preserves the cache invariant. -/
theorem cacheIntermediateResult_CacheOK (env : GenEnv) (c c' : RouteCache)
    (r : IntermediateRoutingResult) (h : cacheIntermediateResult c r = some c')
    (hres : ResultOK env r) (hc : CacheOK env c) : CacheOK env c' := by
  unfold cacheIntermediateResult at h
  by_cases hsim : r.is_simple
  · rw [if_pos hsim] at h
    cases h
    exact hc
  · rw [if_neg hsim] at h
    cases ht : r.target with
    | none => rw [ht] at h; cases h
    | some t =>
        rw [ht] at h
        cases h
        intro k ir hmem
        rcases RouteCache.mem_set _ _ _ _ hmem with he | hold
        · have hk : k = t.target := congrArg Prod.fst he
          have hv : ir = r := congrArg Prod.snd he
          subst hk
          subst hv
          have hfork : ir.type = IRRType.FORK := by
            cases htype : ir.type with
            | SIMPLE => exact absurd ((is_simple_iff ir).mpr htype) hsim
            | FORK => rfl
            | NO_ROUTE =>
                have := hres.1 htype
                rw [this] at ht
                exact Option.noConfusion ht
          exact ⟨hfork, ⟨t, ht, rfl⟩, hres⟩
        · exact hc k ir hold

/-! ### Rank-loop lemmas (for C1, C2, C6, C10) -/

theorem targetOK_special_calltype (env : GenEnv) (mt : RankMemberType)
    (tgt : CallTarget) (h : TargetOK env tgt) :
    TargetOK env
      (if mt ≠ RankMemberType.DEFAULT then
        CallTarget.mk tgt.target (tgt.parameters.set "fork.calltype" mt.fork_calltype)
      else tgt) := by
  by_cases hmt : mt ≠ RankMemberType.DEFAULT
  · rw [if_pos hmt]
    exact ⟨h.1, uuidStamped_set env _ _ _ (by decide) (by decide) h.2⟩
  · rw [if_neg hmt]
    exact h

theorem resultOK_retarget (env : GenEnv) (res : IntermediateRoutingResult)
    (tgt' : CallTarget) (hres : ResultOK env res)
    (hval : res.type ≠ IRRType.NO_ROUTE) (htgt' : TargetOK env tgt') :
    ResultOK env { res with target := some tgt' } := by
  refine ⟨fun hNR => absurd hNR hval, ?_, hres.2.2.1, hres.2.2.2⟩
  intro t ht
  cases ht
  exact htgt'

theorem TargetOK.toSepOrTarget {env : GenEnv} {t : CallTarget} (h : TargetOK env t) :
    SepOrTarget env t := by
  refine ⟨fun hs => ?_, fun _ => h.2⟩
  rw [h.1] at hs
  exact Bool.noConfusion hs

theorem mem_of_getLast?_eq {α : Type} {l : List α} {a : α} (h : l.getLast? = some a) :
    a ∈ l := by
  obtain ⟨hne, heq⟩ := List.mem_getLast?_eq_getLast (Option.mem_def.mpr h)
  subst heq
  exact List.getLast_mem hne

theorem getLast?_append_right {α : Type} (l₁ l₂ : List α) (h : l₂ ≠ []) :
    (l₁ ++ l₂).getLast? = l₂.getLast? := by
  rw [List.getLast?_append]
  cases l₂ with
  | nil => exact absurd rfl h
  | cons a t =>
      have hne : (a :: t).getLast? ≠ none := by simp
      cases hx : (a :: t).getLast? with
      | none => exact absurd hx hne
      | some v => rfl

/-- Every element surviving the empty-default-rank cleanup was already in
the list. -/
theorem dropEmptyDefaultRank_sub (fts : List CallTarget) :
    ∀ t ∈ dropEmptyDefaultRank fts, t ∈ fts := by
  intro t ht
  unfold dropEmptyDefaultRank at ht
  cases hl : fts.getLast? with
  | none => rw [hl] at ht; exact ht
  | some l =>
      rw [hl] at ht
      dsimp only at ht
      by_cases hb : l.target = "|"
      · rw [if_pos hb] at ht
        exact (List.dropLast_sublist fts).mem ht
      · rw [if_neg hb] at ht
        exact ht

/-- The cleanup is the identity when the last element is not the bare
separator. -/
theorem dropEmptyDefaultRank_eq_self (fts : List CallTarget)
    (h : ∀ l, fts.getLast? = some l → l.target ≠ "|") :
    dropEmptyDefaultRank fts = fts := by
  unfold dropEmptyDefaultRank
  cases hl : fts.getLast? with
  | none => rfl
  | some l => exact if_neg (h l hl)

/-- Separators produced by `sepCompute` start with `'|'`. -/
theorem sepCompute_is_separator (fm : FwdMode) (mode : RankMode) (delay : Option Int)
    (acc : Int) (s : String) (a : Int) (m : FwdMode)
    (h : sepCompute fm mode delay acc = some (s, a, m)) :
    (CallTarget.mk s []).is_separator = true := by
  unfold sepCompute at h
  cases mode with
  | DROP =>
      cases delay with
      | none => exact Option.noConfusion h
      | some d =>
          dsimp only at h
          have hs : s = "|drop=" ++ toString d := (congrArg (fun p => p.1) (Option.some.inj h)).symm
          rw [hs]
          exact sep_drop_is_separator _
  | NEXT =>
      cases delay with
      | none => exact Option.noConfusion h
      | some d =>
          dsimp only at h
          have hs : s = "|next=" ++ toString d := (congrArg (fun p => p.1) (Option.some.inj h)).symm
          rw [hs]
          exact sep_next_is_separator _
  | DEFAULT =>
      have hs : s = "|" := (congrArg (fun p => p.1) (Option.some.inj h)).symm
      rw [hs]
      exact sep_bar_is_separator

/-- The member loop appends only uuid-stamped dialable targets and keeps the
cache invariant. -/
theorem membersLoop_spec (env : GenEnv)
    (ih : GTree → RouteCache → Option (IntermediateRoutingResult × RouteCache))
    (hih : GenIHOK env ih) (ms : List (RankMemberType × Bool × GTree)) :
    ∀ fts cache fts' cache', membersLoop ih ms fts cache = some (fts', cache') →
      CacheOK env cache →
      CacheOK env cache' ∧ ∃ app, fts' = fts ++ app ∧ ∀ t ∈ app, TargetOK env t := by
  induction ms with
  | nil =>
      intro fts cache fts' cache' h hc
      rw [membersLoop] at h
      cases h
      exact ⟨hc, [], by simp, by simp⟩
  | cons m rest ihm =>
      obtain ⟨mt, act, mtree⟩ := m
      intro fts cache fts' cache' h hc
      rw [membersLoop] at h
      by_cases hact : act = true
      · rw [if_pos hact] at h
        rcases heq : ih mtree cache with _ | ⟨res, cache1⟩
        · rw [heq] at h
          exact Option.noConfusion h
        · rw [heq] at h
          dsimp only at h
          obtain ⟨hresOK, hc1⟩ := hih mtree cache res cache1 heq hc
          by_cases hval : res.is_valid = true
          · rw [if_pos hval] at h
            rcases htgt : res.target with _ | tgt
            · rw [htgt] at h
              exact Option.noConfusion h
            · rw [htgt] at h
              dsimp only at h
              set tgt' := (if mt ≠ RankMemberType.DEFAULT then
                  CallTarget.mk tgt.target (tgt.parameters.set "fork.calltype" mt.fork_calltype)
                else tgt) with htgt'def
              have htgtOK : TargetOK env tgt := hresOK.2.1 tgt htgt
              have htgt'OK : TargetOK env tgt' :=
                htgt'def ▸ targetOK_special_calltype env mt tgt htgtOK
              have hres'OK := resultOK_retarget env res tgt' hresOK
                ((is_valid_iff res).mp hval) htgt'OK
              rcases hc2 : cacheIntermediateResult cache1
                  { res with target := some tgt' } with _ | cache2
              · rw [hc2] at h
                exact Option.noConfusion h
              · rw [hc2] at h
                have hcache2 := cacheIntermediateResult_CacheOK env cache1 cache2
                  { res with target := some tgt' } hc2 hres'OK hc1
                obtain ⟨hc', app, happ, htargets⟩ := ihm _ _ _ _ h hcache2
                refine ⟨hc', tgt' :: app, by rw [happ]; simp, ?_⟩
                intro t ht
                rcases List.mem_cons.mp ht with ht | ht
                · rw [ht]
                  exact htgt'OK
                · exact htargets t ht
          · rw [if_neg hval] at h
            exact ihm _ _ _ _ h hc1
      · rw [if_neg hact] at h
        exact ihm _ _ _ _ h hc

/-- The rank loop keeps the cache invariant and the fork-target-list
invariant (separators carry no parameters, dialable targets are
uuid-stamped, the last element is never the bare `|`). -/
theorem ranksLoop_spec (env : GenEnv)
    (ih : GTree → RouteCache → Option (IntermediateRoutingResult × RouteCache))
    (hih : GenIHOK env ih) (fdelay : Option Int)
    (ranks : List (RankMode × Option Int × List (RankMemberType × Bool × GTree))) :
    ∀ st st', ranksLoop ih fdelay ranks st = some st' →
      CacheOK env st.cache → FtsOK env st.fts →
      CacheOK env st'.cache ∧ FtsOK env st'.fts := by
  induction ranks with
  | nil =>
      intro st st' h hc hf
      rw [ranksLoop] at h
      cases h
      exact ⟨hc, hf⟩
  | cons rk rest ihr =>
      obtain ⟨mode, delay, members⟩ := rk
      intro st st' h hc hf
      rw [ranksLoop] at h
      by_cases hemp : st.fts.isEmpty = true
      · rw [if_pos hemp] at h
        rcases hm : membersLoop ih members st.fts st.cache with _ | ⟨fts2, cache2⟩
        · rw [hm] at h
          exact Option.noConfusion h
        · rw [hm] at h
          dsimp only at h
          obtain ⟨hc2, app, happ, htargets⟩ := membersLoop_spec env ih hih members _ _ _ _ hm hc
          have hnil : st.fts = [] := List.isEmpty_iff.mp hemp
          have happ2 : fts2 = app := by rw [happ, hnil, List.nil_append]
          refine ihr _ _ h hc2 ⟨?_, ?_⟩
          · intro t ht
            have hin : t ∈ fts2 := dropEmptyDefaultRank_sub fts2 t ht
            rw [happ2] at hin
            exact (htargets t hin).toSepOrTarget
          · intro l hl
            have hin : l ∈ fts2 := dropEmptyDefaultRank_sub fts2 l (mem_of_getLast?_eq hl)
            rw [happ2] at hin
            exact (htargets l hin).target_ne_bar
      · rw [if_neg hemp] at h
        rcases hsep : sepCompute st.fm mode delay st.acc with _ | ⟨sep, acc', fm'⟩
        · rw [hsep] at h
          exact Option.noConfusion h
        · rw [hsep] at h
          dsimp only at h
          rcases hbk : breakCheck fm' fdelay acc' with _ | b
          · rw [hbk] at h
            exact Option.noConfusion h
          · rw [hbk] at h
            cases b with
            | true =>
                dsimp only at h
                cases h
                exact ⟨hc, hf⟩
            | false =>
                dsimp only at h
                rcases hm : membersLoop ih members (st.fts ++ [⟨sep, []⟩]) st.cache with
                  _ | ⟨fts2, cache2⟩
                · rw [hm] at h
                  exact Option.noConfusion h
                · rw [hm] at h
                  obtain ⟨hc2, app, happ, htargets⟩ :=
                    membersLoop_spec env ih hih members _ _ _ _ hm hc
                  have hsepOK : SepOrTarget env ⟨sep, []⟩ :=
                    ⟨fun _ => rfl, fun hfalse => by
                      rw [sepCompute_is_separator st.fm mode delay st.acc sep acc' fm' hsep]
                        at hfalse
                      exact Bool.noConfusion hfalse⟩
                  refine ihr _ _ h hc2 ⟨?_, ?_⟩
                  · intro t ht
                    have hin : t ∈ fts2 := dropEmptyDefaultRank_sub fts2 t ht
                    rw [happ] at hin
                    rcases List.mem_append.mp hin with hin | hin
                    · rcases List.mem_append.mp hin with hin | hin
                      · exact hf.1 t hin
                      · rw [List.mem_singleton.mp hin]
                        exact hsepOK
                    · exact (htargets t hin).toSepOrTarget
                  · intro l hl
                    cases happn : app with
                    | nil =>
                        rw [happn, List.append_nil] at happ
                        subst happ
                        by_cases hb : (⟨sep, []⟩ : CallTarget).target = "|"
                        · rw [dropEmptyDefaultRank] at hl
                          rw [List.getLast?_concat] at hl
                          dsimp only at hl
                          rw [if_pos hb, List.dropLast_concat] at hl
                          exact hf.2 l hl
                        · rw [dropEmptyDefaultRank] at hl
                          rw [List.getLast?_concat] at hl
                          dsimp only at hl
                          rw [if_neg hb, List.getLast?_concat] at hl
                          cases hl
                          exact hb
                    | cons a app' =>
                        have hne : app ≠ [] := by rw [happn]; exact List.cons_ne_nil a app'
                        have hlast : fts2.getLast? = app.getLast? := by
                          rw [happ]
                          exact getLast?_append_right _ _ hne
                        have hlastOK : ∀ l', fts2.getLast? = some l' → l'.target ≠ "|" := by
                          intro l' hl'
                          rw [hlast] at hl'
                          exact (htargets l' (mem_of_getLast?_eq hl')).target_ne_bar
                        rw [dropEmptyDefaultRank_eq_self fts2 hlastOK] at hl
                        exact hlastOK l hl

theorem ftsOK_cons (env : GenEnv) (a : CallTarget) (l : List CallTarget)
    (ha : SepOrTarget env a) (hane : a.target ≠ "|") (hl : FtsOK env l) :
    FtsOK env (a :: l) := by
  constructor
  · intro t ht
    rcases List.mem_cons.mp ht with ht | ht
    · rw [ht]; exact ha
    · exact hl.1 t ht
  · intro l' hl'
    cases l with
    | nil =>
        have ha' : a = l' := by simpa using hl'
        rw [← ha']
        exact hane
    | cons b bs =>
        rw [List.getLast?_cons_cons] at hl'
        exact hl.2 l' hl'

/-- The multiring/simple self-target insertion keeps the fork-list
invariant. -/
theorem multiringInsert_FtsOK (env : GenEnv) (i : GInfo)
    (ranks : List (RankMode × Option Int × List (RankMemberType × Bool × GTree)))
    (fts fts1 : List CallTarget) (h : multiringInsert env i ranks fts = some fts1)
    (hf : FtsOK env fts) : FtsOK env fts1 := by
  unfold multiringInsert at h
  by_cases htype : i.etype = ExtType.MULTIRING ∨ i.etype = ExtType.SIMPLE
  · rw [if_pos htype] at h
    rcases hg : generateSimpleRoutingTarget env i with _ | st
    · rw [hg] at h
      exact Option.noConfusion h
    · rw [hg] at h
      dsimp only at h
      cases h
      have hstOK := generateSimpleRoutingTarget_TargetOK env i st hg
      rcases hr : ranks.head? with _ | ⟨mode, delay, mem⟩
      · exact ftsOK_cons env st fts hstOK.toSepOrTarget hstOK.target_ne_bar hf
      · cases mode with
        | DEFAULT =>
            exact ftsOK_cons env st fts hstOK.toSepOrTarget hstOK.target_ne_bar hf
        | NEXT =>
            refine ftsOK_cons env st _ hstOK.toSepOrTarget hstOK.target_ne_bar
              (ftsOK_cons env _ fts ?_ (sep_next_ne_bar _) hf)
            refine ⟨fun _ => rfl, fun hfalse => ?_⟩
            rw [sep_next_is_separator] at hfalse
            exact Bool.noConfusion hfalse
        | DROP =>
            refine ftsOK_cons env st _ hstOK.toSepOrTarget hstOK.target_ne_bar
              (ftsOK_cons env _ fts ?_ (sep_drop_ne_bar _) hf)
            refine ⟨fun _ => rfl, fun hfalse => ?_⟩
            rw [sep_drop_is_separator] at hfalse
            exact Bool.noConfusion hfalse
  · rw [if_neg htype] at h
    cases h
    exact hf

/-- The on-busy stamping does not change target strings. -/
theorem onBusyStamp_map_target (fm : FwdMode) (fts : List CallTarget) :
    (onBusyStamp fm fts).map CallTarget.target = fts.map CallTarget.target := by
  unfold onBusyStamp
  by_cases hfm : fm = FwdMode.ON_BUSY
  · rw [if_pos hfm, List.map_map]
    apply List.map_congr_left
    intro t _
    by_cases hs : ¬ t.is_separator
    · simp only [Function.comp, if_pos hs]
    · simp only [Function.comp, if_neg hs]
  · rw [if_neg hfm]

/-- The on-busy stamping keeps the fork-list invariant. -/
theorem onBusyStamp_FtsOK (env : GenEnv) (fm : FwdMode) (fts : List CallTarget)
    (hf : FtsOK env fts) : FtsOK env (onBusyStamp fm fts) := by
  unfold onBusyStamp
  by_cases hfm : fm = FwdMode.ON_BUSY
  · rw [if_pos hfm]
    constructor
    · intro t' ht'
      obtain ⟨t, hmem, hteq⟩ := List.mem_map.mp ht'
      have hOK := hf.1 t hmem
      by_cases hs : ¬ t.is_separator
      · rw [if_pos hs] at hteq
        subst hteq
        have hsep : t.is_separator = false := by
          cases hb : t.is_separator with
          | false => rfl
          | true => exact absurd hb hs
        refine ⟨fun hfalse => ?_, fun _ => ?_⟩
        · have : t.is_separator = true := hfalse
          rw [hsep] at this
          exact Bool.noConfusion this
        · exact uuidStamped_set env _ _ _ (by decide) (by decide) (hOK.2 hsep)
      · rw [if_neg hs] at hteq
        subst hteq
        exact hOK
    · intro l' hl'
      rw [List.getLast?_map] at hl'
      cases hlast : fts.getLast? with
      | none => rw [hlast] at hl'; exact Option.noConfusion hl'
      | some l =>
          rw [hlast] at hl'
          have hne := hf.2 l hlast
          have hl'eq : l' = if ¬ l.is_separator then
              CallTarget.mk l.target (l.parameters.set "osip_X-No-Call-Wait" "1") else l :=
            (Option.some.inj hl').symm
          by_cases hs : ¬ l.is_separator
          · rw [hl'eq, if_pos hs]
            exact hne
          · rw [hl'eq, if_neg hs]
            exact hne
  · rw [if_neg hfm]
    exact hf

/-- The forward phase keeps the cache and fork-list invariants. -/
theorem fwdPhase_spec (env : GenEnv)
    (ih : GTree → RouteCache → Option (IntermediateRoutingResult × RouteCache))
    (hih : GenIHOK env ih) (i : GInfo) (fm : FwdMode) (acc : Int)
    (fwd : Option GTree) (fts : List CallTarget) (cache : RouteCache)
    (fts3 : List CallTarget) (cache3 : RouteCache)
    (h : fwdPhase ih i fm acc fwd fts cache = some (fts3, cache3))
    (hc : CacheOK env cache) (hf : FtsOK env fts) :
    CacheOK env cache3 ∧ FtsOK env fts3 := by
  unfold fwdPhase at h
  by_cases hfm : fm = FwdMode.ENABLED ∨ fm = FwdMode.ON_BUSY ∨ fm = FwdMode.ON_UNAVAILABLE
  · rw [if_pos hfm] at h
    cases fwd with
    | none => exact Option.noConfusion h
    | some ft =>
        dsimp only at h
        rcases heq : ih ft cache with _ | ⟨fres, cache1⟩
        · rw [heq] at h
          exact Option.noConfusion h
        · rw [heq] at h
          dsimp only at h
          obtain ⟨hresOK, hc1⟩ := hih ft cache fres cache1 heq hc
          have hsepOK : ∀ s : String,
              (if fm = FwdMode.ENABLED then
                match i.forwarding_delay with
                | none => none
                | some fd => some ("|drop=" ++ toString (fd - acc))
              else some "|") = some s →
              SepOrTarget env ⟨s, []⟩ := by
            intro s hs
            by_cases he : fm = FwdMode.ENABLED
            · rw [if_pos he] at hs
              cases hfd : i.forwarding_delay with
              | none => rw [hfd] at hs; exact Option.noConfusion hs
              | some fd =>
                  rw [hfd] at hs
                  have : s = "|drop=" ++ toString (fd - acc) := (Option.some.inj hs).symm
                  rw [this]
                  refine ⟨fun _ => rfl, fun hfalse => ?_⟩
                  rw [sep_drop_is_separator] at hfalse
                  exact Bool.noConfusion hfalse
            · rw [if_neg he] at hs
              have : s = "|" := (Option.some.inj hs).symm
              rw [this]
              exact ⟨fun _ => rfl, fun hfalse => Bool.noConfusion
                (sep_bar_is_separator ▸ hfalse)⟩
          rcases hs : (if fm = FwdMode.ENABLED then
              match i.forwarding_delay with
              | none => none
              | some fd => some ("|drop=" ++ toString (fd - acc))
            else some "|") with _ | s
          · rw [hs] at h
            exact Option.noConfusion h
          · rw [hs] at h
            dsimp only at h
            rcases htgt : fres.target with _ | tgt
            · rw [htgt] at h
              exact Option.noConfusion h
            · rw [htgt] at h
              rcases hc2 : cacheIntermediateResult cache1 fres with _ | cache2
              · rw [hc2] at h
                exact Option.noConfusion h
              · rw [hc2] at h
                cases h
                have htgtOK := hresOK.2.1 tgt htgt
                refine ⟨cacheIntermediateResult_CacheOK env cache1 cache3 fres hc2 hresOK hc1,
                  ?_, ?_⟩
                · intro t ht
                  rcases List.mem_append.mp ht with ht | ht
                  · exact hf.1 t ht
                  · rcases List.mem_cons.mp ht with ht | ht
                    · rw [ht]
                      exact hsepOK s hs
                    · rw [List.mem_singleton.mp ht]
                      exact htgtOK.toSepOrTarget
                · intro l hl
                  rw [getLast?_append_right _ _ (List.cons_ne_nil _ _),
                    List.getLast?_cons_cons] at hl
                  have htl : tgt = l := by simpa using hl
                  rw [← htl]
                  exact htgtOK.target_ne_bar
  · rw [if_neg hfm] at h
    cases h
    exact ⟨hc, hf⟩

/-- Master invariant of the generation visitor: starting from a well-formed
cache, a successful `_visit` returns a structurally well-formed result and a
well-formed cache. -/
theorem visitCalc_spec (env : GenEnv) (f : Nat) :
    ∀ t path cache r c', visitCalc env f t path cache = some (r, c') →
      CacheOK env cache → ResultOK env r ∧ CacheOK env c' := by
  induction f with
  | zero =>
      intro t path cache r c' h _
      exact Option.noConfusion h
  | succ f ihf =>
      intro t path cache r c' h hc
      have hih : ∀ lp, GenIHOK env (fun s c => visitCalc env f s lp c) :=
        fun lp s c rr cc hh hcc => ihf s lp c rr cc hh hcc
      rw [visitCalc] at h
      obtain ⟨i, ranks, fwd⟩ := t
      unfold stepCalc at h
      dsimp only at h
      by_cases himm : i.immediate_forward = true
      · rw [if_pos himm] at h
        cases fwd with
        | none => exact Option.noConfusion h
        | some ft => exact ihf ft _ cache r c' h hc
      · rw [if_neg himm] at h
        by_cases hsimple : nodeHasSimpleRouting i ranks = true
        · rw [if_pos hsimple] at h
          rcases hg : generateSimpleRoutingTarget env i with _ | st
          · rw [hg] at h
            exact Option.noConfusion h
          · rw [hg] at h
            dsimp only at h
            cases h
            have hstOK := generateSimpleRoutingTarget_TargetOK env i st hg
            refine ⟨⟨fun hNR => ?_, fun t ht => ?_, fun t ht => ?_, fun hFK => ?_⟩, hc⟩
            · exact IRRType.noConfusion hNR
            · cases ht
              exact hstOK
            · exact absurd ht (List.not_mem_nil t)
            · exact IRRType.noConfusion hFK
        · rw [if_neg hsimple] at h
          rcases hrl : ranksLoop (fun s c => visitCalc env f s (path ++ [i.id]) c)
              i.forwarding_delay ranks ⟨[], 0, i.forwarding_mode, cache⟩ with _ | st
          · rw [hrl] at h
            exact Option.noConfusion h
          · rw [hrl] at h
            dsimp only at h
            have hinit : FtsOK env ([] : List CallTarget) :=
              ⟨fun t ht => absurd ht (List.not_mem_nil t),
                fun l hl => Option.noConfusion hl⟩
            obtain ⟨hcSt, hfSt⟩ := ranksLoop_spec env _ (hih (path ++ [i.id]))
              i.forwarding_delay ranks _ st hrl hc hinit
            rcases hmi : multiringInsert env i ranks st.fts with _ | fts1
            · rw [hmi] at h
              exact Option.noConfusion h
            · rw [hmi] at h
              dsimp only at h
              have hf1 := multiringInsert_FtsOK env i ranks st.fts fts1 hmi hfSt
              have hf2 := onBusyStamp_FtsOK env st.fm fts1 hf1
              rcases hfp : fwdPhase (fun s c => visitCalc env f s (path ++ [i.id]) c)
                  i st.fm st.acc fwd (onBusyStamp st.fm fts1) st.cache with _ | ⟨fts3, cache3⟩
              · rw [hfp] at h
                exact Option.noConfusion h
              · rw [hfp] at h
                dsimp only at h
                have hpair := Option.some.inj h
                have hr : r = IntermediateRoutingResult.create
                    (some (makeCalltarget env
                      (generateDeferredRoutestring env (path ++ [i.id])) [])) (some fts3) :=
                  (congrArg Prod.fst hpair).symm
                have hcc : c' = cache3 := (congrArg Prod.snd hpair).symm
                subst hr
                subst hcc
                obtain ⟨hc3, hf3⟩ := fwdPhase_spec env _ (hih (path ++ [i.id]))
                  i st.fm st.acc fwd _ st.cache _ _ hfp hcSt hf2
                refine ⟨?_, hc3⟩
                unfold IntermediateRoutingResult.create
                dsimp only
                by_cases hlen : fts3.length > 0
                · rw [if_pos hlen]
                  refine ⟨fun hNR => IRRType.noConfusion hNR, fun t ht => ?_,
                    fun t ht => hf3.1 t ht, fun _ => ?_⟩
                  · cases ht
                    refine ⟨?_, uuidStamped_makeCalltarget env _ _⟩
                    rw [is_separator_false_iff]
                    show (generateDeferredRoutestring env (path ++ [i.id])).data.head? ≠ some '|'
                    rw [deferred_head]
                    decide
                  · refine ⟨?_, hf3.2⟩
                    intro hnil
                    have hnil' : fts3 = [] := hnil
                    rw [hnil'] at hlen
                    exact absurd hlen (by decide)
                · rw [if_neg hlen]
                  exact ⟨fun _ => rfl, fun t ht => Option.noConfusion ht,
                    fun t ht => absurd ht (List.not_mem_nil t),
                    fun hFK => IRRType.noConfusion hFK⟩

/-- The forward phase only ever appends to the fork-target list. -/
theorem fwdPhase_append (ih : GTree → RouteCache → Option (IntermediateRoutingResult × RouteCache))
    (i : GInfo) (fm : FwdMode) (acc : Int) (fwd : Option GTree)
    (fts : List CallTarget) (cache : RouteCache) (fts3 : List CallTarget)
    (cache3 : RouteCache) (h : fwdPhase ih i fm acc fwd fts cache = some (fts3, cache3)) :
    ∃ suffix, fts3 = fts ++ suffix := by
  unfold fwdPhase at h
  by_cases hfm : fm = FwdMode.ENABLED ∨ fm = FwdMode.ON_BUSY ∨ fm = FwdMode.ON_UNAVAILABLE
  · rw [if_pos hfm] at h
    cases fwd with
    | none => exact Option.noConfusion h
    | some ft =>
        dsimp only at h
        rcases heq : ih ft cache with _ | ⟨fres, cache1⟩
        · rw [heq] at h
          exact Option.noConfusion h
        · rw [heq] at h
          dsimp only at h
          rcases hs : (if fm = FwdMode.ENABLED then
              match i.forwarding_delay with
              | none => none
              | some fd => some ("|drop=" ++ toString (fd - acc))
            else some "|") with _ | s
          · rw [hs] at h
            exact Option.noConfusion h
          · rw [hs] at h
            dsimp only at h
            rcases htgt : fres.target with _ | tgt
            · rw [htgt] at h
              exact Option.noConfusion h
            · rw [htgt] at h
              rcases hc2 : cacheIntermediateResult cache1 fres with _ | cache2
              · rw [hc2] at h
                exact Option.noConfusion h
              · rw [hc2] at h
                have := congrArg Prod.fst (Option.some.inj h)
                exact ⟨[⟨s, []⟩, tgt], this.symm⟩
  · rw [if_neg hfm] at h
    have hfst : fts = fts3 := congrArg Prod.fst (Option.some.inj h)
    exact ⟨[], by rw [← hfst, List.append_nil]⟩

/-- With forwarding enabled, the forward phase appends exactly the
`|drop=<forwarding_delay - accumulated_delay>` separator followed by the
(uuid-stamped) forward target. -/
theorem fwdPhase_enabled_shape (env : GenEnv)
    (ih : GTree → RouteCache → Option (IntermediateRoutingResult × RouteCache))
    (hih : GenIHOK env ih) (i : GInfo) (acc : Int) (fwd : Option GTree)
    (fts : List CallTarget) (cache : RouteCache) (fts3 : List CallTarget)
    (cache3 : RouteCache) (fd : Int)
    (h : fwdPhase ih i FwdMode.ENABLED acc fwd fts cache = some (fts3, cache3))
    (hfd : i.forwarding_delay = some fd) (hc : CacheOK env cache) :
    ∃ tgt, fts3 = fts ++ [⟨"|drop=" ++ toString (fd - acc), []⟩, tgt] ∧
      TargetOK env tgt := by
  unfold fwdPhase at h
  rw [if_pos (Or.inl rfl)] at h
  cases fwd with
  | none => exact Option.noConfusion h
  | some ft =>
      dsimp only at h
      rcases heq : ih ft cache with _ | ⟨fres, cache1⟩
      · rw [heq] at h
        exact Option.noConfusion h
      · rw [heq] at h
        dsimp only at h
        rw [if_pos rfl, hfd] at h
        dsimp only at h
        rcases htgt : fres.target with _ | tgt
        · rw [htgt] at h
          exact Option.noConfusion h
        · rw [htgt] at h
          rcases hc2 : cacheIntermediateResult cache1 fres with _ | cache2
          · rw [hc2] at h
            exact Option.noConfusion h
          · rw [hc2] at h
            obtain ⟨hresOK, -⟩ := hih ft cache fres cache1 heq hc
            have := congrArg Prod.fst (Option.some.inj h)
            exact ⟨tgt, this.symm, hresOK.2.1 tgt htgt⟩

/-- The multiring/simple insertion puts the node's simple routing target at
the head of the list. -/
theorem multiringInsert_head (env : GenEnv) (i : GInfo)
    (ranks : List (RankMode × Option Int × List (RankMemberType × Bool × GTree)))
    (fts fts1 : List CallTarget) (h : multiringInsert env i ranks fts = some fts1)
    (htype : i.etype = ExtType.MULTIRING ∨ i.etype = ExtType.SIMPLE) :
    ∃ st, generateSimpleRoutingTarget env i = some st ∧ fts1.head? = some st := by
  unfold multiringInsert at h
  rw [if_pos htype] at h
  rcases hg : generateSimpleRoutingTarget env i with _ | st
  · rw [hg] at h
    exact Option.noConfusion h
  · rw [hg] at h
    dsimp only at h
    exact ⟨st, rfl, by rw [← Option.some.inj h]; rfl⟩

/-! ### Ringback and parameter-population lemmas (for C6) -/

theorem wave_head (s : String) : ("wave/play/" ++ s).data.head? = some 'w' := by
  rw [cons_data_append "wave/play/" 'w' "ave/play/".data rfl s]
  rfl

theorem ringback_not_separator (p : String) :
    (makeRingbackTarget p).is_separator = false := by
  rw [is_separator_false_iff]
  show ("wave/play/" ++ p).data.head? ≠ some '|'
  rw [wave_head]
  decide

theorem updateTargetParams_uuid (env : GenEnv) (ps : Params) (t : CallTarget)
    (h1 : "x_eventphone_id" ∉ ps.map Prod.fst)
    (h2 : "osip_X-Eventphone-Id" ∉ ps.map Prod.fst)
    (h : uuidStamped env t.parameters) :
    uuidStamped env (updateTargetParams t ps).parameters := by
  unfold updateTargetParams
  exact ⟨by rw [Params.get?_update_of_not_mem _ _ _ h1]; exact h.1,
    by rw [Params.get?_update_of_not_mem _ _ _ h2]; exact h.2⟩

/-- Separator strings are never cache keys: every key is the target string
of a non-separator envelope. -/
theorem sep_target_not_in_keys (env : GenEnv) (cache : RouteCache)
    (hc : CacheOK env cache) (t : CallTarget) (hsep : t.is_separator = true) :
    (cache.map Prod.fst).contains t.target = false := by
  by_contra hcon
  have hmem : t.target ∈ cache.map Prod.fst := by
    cases hb : (cache.map Prod.fst).contains t.target with
    | false => exact absurd hb hcon
    | true => simpa using hb
  obtain ⟨⟨k, ir⟩, hkv, hk⟩ := List.mem_map.mp hmem
  obtain ⟨-, ⟨tgt, htgt, htgtk⟩, hresOK⟩ := hc k ir hkv
  have htOK := hresOK.2.1 tgt htgt
  have hne : tgt.target.data.head? ≠ some '|' := (is_separator_false_iff tgt).mp htOK.1
  have heq : tgt.target = t.target := by rw [htgtk]; exact hk
  rw [heq] at hne
  exact hne ((is_separator_true_iff t).mp hsep)

/-- Facts about one fork-list element after the global parameter update:
target string and separator-ness are unchanged, separators (whose target is
never a cache key) are untouched, and the uuid stamp survives. -/
theorem populate_updT_spec (env : GenEnv) (ps : Params) (cache : RouteCache)
    (hc : CacheOK env cache)
    (h1 : "x_eventphone_id" ∉ ps.map Prod.fst)
    (h2 : "osip_X-Eventphone-Id" ∉ ps.map Prod.fst) (t : CallTarget) :
    ((if (cache.map Prod.fst).contains t.target then updateTargetParams t ps
      else t).target = t.target) ∧
    ((if (cache.map Prod.fst).contains t.target then updateTargetParams t ps
      else t).is_separator = t.is_separator) ∧
    (t.is_separator = true →
      (if (cache.map Prod.fst).contains t.target then updateTargetParams t ps
        else t) = t) ∧
    (uuidStamped env t.parameters →
      uuidStamped env
        (if (cache.map Prod.fst).contains t.target then updateTargetParams t ps
          else t).parameters) := by
  by_cases hct : (cache.map Prod.fst).contains t.target = true
  · rw [if_pos hct]
    refine ⟨rfl, rfl, fun hsep => ?_, fun hu => updateTargetParams_uuid env ps t h1 h2 hu⟩
    rw [sep_target_not_in_keys env cache hc t hsep] at hct
    exact Bool.noConfusion hct
  · rw [if_neg hct]
    exact ⟨rfl, rfl, fun _ => rfl, fun hu => hu⟩

/-- A result of `generate_trunk_routing` is a Simple with a uuid-stamped
non-separator target. -/
theorem generateTrunkRouting_spec (env : GenEnv) (i : GInfo) (dialed : String)
    (r : IntermediateRoutingResult) (h : generateTrunkRouting env i dialed = some r) :
    ResultOK env r ∧ r.type = IRRType.SIMPLE := by
  unfold generateTrunkRouting at h
  cases hy : i.yate_id with
  | none =>
      rw [hy] at h
      exact Option.noConfusion h
  | some y =>
      rw [hy] at h
      dsimp only at h
      have hshape : ∃ s ps, r = IntermediateRoutingResult.create
          (some (makeCalltarget env s ps)) none ∧
          (makeCalltarget env s ps).is_separator = false := by
        by_cases hloc : y = env.localYateId
        · rw [if_pos hloc] at h
          refine ⟨"lateroute/" ++ dialed, [("eventphone_stage2", "1")],
            (Option.some.inj h).symm, ?_⟩
          rw [is_separator_false_iff]
          show ("lateroute/" ++ dialed).data.head? ≠ some '|'
          rw [lateroute_head]
          decide
        · rw [if_neg hloc] at h
          refine ⟨"sip/sip:" ++ dialed ++ "@" ++ (env.yates y).hostname,
            [("oconnection_id", (env.yates y).voip_listener)],
            (Option.some.inj h).symm, ?_⟩
          rw [is_separator_false_iff]
          show ("sip/sip:" ++ dialed ++ "@" ++ (env.yates y).hostname).data.head? ≠ some '|'
          rw [sip_full_head]
          decide
      obtain ⟨s, ps, hr, hns⟩ := hshape
      rw [hr]
      refine ⟨⟨fun hNR => IRRType.noConfusion hNR, fun t ht => ?_,
        fun t ht => absurd ht (List.not_mem_nil t),
        fun hFK => IRRType.noConfusion hFK⟩, rfl⟩
      cases ht
      exact ⟨hns, uuidStamped_makeCalltarget env _ _⟩

/-- `_calculate_main_routing` returns a structurally well-formed, valid
result and a well-formed cache. -/
theorem calculateMainRouting_spec (env : GenEnv) (fuel : Nat) (t : GTree)
    (dialed : String) (r0 : IntermediateRoutingResult) (cache0 : RouteCache)
    (h : calculateMainRouting env fuel t dialed = some (r0, cache0)) :
    ResultOK env r0 ∧ CacheOK env cache0 ∧ r0.is_valid = true := by
  unfold calculateMainRouting at h
  have hemptyCache : CacheOK env ([] : RouteCache) :=
    fun k ir hmem => absurd hmem (List.not_mem_nil _)
  by_cases htr : t.info.etype = ExtType.TRUNK
  · rw [if_pos htr] at h
    rcases hg : generateTrunkRouting env t.info dialed with _ | rt
    · rw [hg] at h
      exact Option.noConfusion h
    · rw [hg] at h
      dsimp only [Option.map] at h
      obtain ⟨hresOK, htype⟩ := generateTrunkRouting_spec env t.info dialed rt hg
      have hval : rt.is_valid = true := by
        rw [is_valid_iff, htype]
        exact IRRType.noConfusion
      rw [if_pos hval] at h
      have hr : r0 = rt := (congrArg Prod.fst (Option.some.inj h)).symm
      have hcc : cache0 = [] := (congrArg Prod.snd (Option.some.inj h)).symm
      rw [hr, hcc]
      exact ⟨hresOK, hemptyCache, hval⟩
  · rw [if_neg htr] at h
    rcases hg : calculateRouting env fuel t with _ | ⟨rt, ct⟩
    · rw [hg] at h
      exact Option.noConfusion h
    · rw [hg] at h
      dsimp only at h
      obtain ⟨hresOK, hcache⟩ := visitCalc_spec env fuel t [] [] rt ct hg hemptyCache
      by_cases hval : rt.is_valid = true
      · rw [if_pos hval] at h
        have hr : r0 = rt := (congrArg Prod.fst (Option.some.inj h)).symm
        have hcc : cache0 = ct := (congrArg Prod.snd (Option.some.inj h)).symm
        rw [hr, hcc]
        exact ⟨hresOK, hcache, hval⟩
      · rw [if_neg hval] at h
        exact Option.noConfusion h

/-- Structure of the ringback injection: in both the Simple-to-Fork
conversion and the prepend case, the result keeps parameterless separators
and uuid-stamped dialable targets, except for the injected ringback leg. -/
theorem provideRingback_spec (env : GenEnv) (rb : Option String)
    (r0 r1 : IntermediateRoutingResult) (conv : Bool)
    (h : provideRingback rb r0 = some (r1, conv)) (hres : ResultOK env r0) :
    (∀ tg ∈ r1.fork_targets, tg.is_separator = true → tg.parameters = []) ∧
    (∀ tg ∈ r1.fork_targets, tg.is_separator = false →
      (∀ p, rb = some p → tg.target ≠ "wave/play/" ++ p) →
      uuidStamped env tg.parameters) ∧
    (∀ tgt, r1.target = some tgt → uuidStamped env tgt.parameters) ∧
    (conv = true → ∃ p t0, rb = some p ∧ TargetOK env t0 ∧
      r1.target = some ⟨"fork", t0.parameters⟩ ∧
      r1.fork_targets = [makeRingbackTarget p, t0]) := by
  unfold provideRingback at h
  cases rb with
  | none =>
      have hr : r1 = r0 := (congrArg Prod.fst (Option.some.inj h)).symm
      have hconv : conv = false := (congrArg Prod.snd (Option.some.inj h)).symm
      subst hr
      refine ⟨fun tg hm hs => (hres.2.2.1 tg hm).1 hs,
        fun tg hm hns _ => (hres.2.2.1 tg hm).2 hns,
        fun tgt ht => (hres.2.1 tgt ht).2,
        fun hcv => ?_⟩
      rw [hconv] at hcv
      exact Bool.noConfusion hcv
  | some p =>
      dsimp only at h
      by_cases hsim : r0.is_simple = true
      · rw [if_pos hsim] at h
        rcases ht0 : r0.target with _ | t0
        · rw [ht0] at h
          exact Option.noConfusion h
        · rw [ht0] at h
          dsimp only at h
          have hr : r1 = IntermediateRoutingResult.create (some ⟨"fork", t0.parameters⟩)
              (some [makeRingbackTarget p, t0]) :=
            (congrArg Prod.fst (Option.some.inj h)).symm
          have ht0OK : TargetOK env t0 := hres.2.1 t0 ht0
          have hcr : IntermediateRoutingResult.create (some ⟨"fork", t0.parameters⟩)
              (some [makeRingbackTarget p, t0]) =
              ⟨IRRType.FORK, some ⟨"fork", t0.parameters⟩,
                [makeRingbackTarget p, t0]⟩ := rfl
          rw [hcr] at hr
          subst hr
          refine ⟨fun tg hm hs => ?_, fun tg hm hns hexcl => ?_,
            fun tgt ht => ?_, fun _ => ⟨p, t0, rfl, ht0OK, rfl, rfl⟩⟩
          · rcases List.mem_cons.mp hm with hm | hm
            · rw [hm] at hs
              rw [ringback_not_separator p] at hs
              exact Bool.noConfusion hs
            · rw [List.mem_singleton.mp hm] at hs
              rw [ht0OK.1] at hs
              exact Bool.noConfusion hs
          · rcases List.mem_cons.mp hm with hm | hm
            · exact absurd rfl (hm ▸ hexcl p rfl)
            · rw [List.mem_singleton.mp hm]
              exact ht0OK.2
          · cases ht
            exact ht0OK.2
      · rw [if_neg hsim] at h
        have hr : r1 = { r0 with fork_targets := makeRingbackTarget p :: r0.fork_targets } :=
          (congrArg Prod.fst (Option.some.inj h)).symm
        have hconv : conv = false := (congrArg Prod.snd (Option.some.inj h)).symm
        subst hr
        refine ⟨fun tg hm hs => ?_, fun tg hm hns hexcl => ?_,
          fun tgt ht => (hres.2.1 tgt ht).2, fun hcv => ?_⟩
        · rcases List.mem_cons.mp hm with hm | hm
          · rw [hm] at hs
            rw [ringback_not_separator p] at hs
            exact Bool.noConfusion hs
          · exact (hres.2.2.1 tg hm).1 hs
        · rcases List.mem_cons.mp hm with hm | hm
          · exact absurd rfl (hm ▸ hexcl p rfl)
          · exact (hres.2.2.1 tg hm).2 hns
        · rw [hconv] at hcv
          exact Bool.noConfusion hcv

/-! ### Discovery-visitor lemmas (for C5) -/

/-- Membership in the calls of a merged visit outcome. -/
theorem DVisitResult.mem_merge_calls (a b : DVisitResult) (x : String × List String) :
    x ∈ (a.merge b).calls ↔ x ∈ a.calls ∨ x ∈ b.calls := by
  simp [DVisitResult.merge]

/-- Calls recorded when dispatching one candidate child from local path
`lp`: the child is only entered if absent from `lp`. -/
theorem dVisitChild_calls (f : Nat) (ih : DExt → List String → DVisitResult)
    (lp : List String) (c : DExt) (hih : GoodIH f ih) :
    ∀ e q, (e, q) ∈ (dVisitChild ih lp c).calls →
      e ∉ q ∧ lp.length ≤ q.length ∧ q.length ≤ lp.length + f ∧
      (lp.Nodup → (q ++ [e]).Nodup) := by
  intro e q hq
  unfold dVisitChild at hq
  by_cases hmem : c.extension ∈ lp
  · simp [hmem, DVisitResult.empty] at hq
  · simp only [hmem, if_neg, ite_false, List.mem_cons] at hq
    rcases hq with hq | hq
    · obtain ⟨he, hqe⟩ := Prod.mk.injEq .. ▸ hq
      subst he; subst hqe
      refine ⟨hmem, le_refl _, Nat.le_add_right _ _, fun hnd => ?_⟩
      exact (List.perm_append_singleton _ _).nodup_iff.mpr
        (List.nodup_cons.mpr ⟨hmem, hnd⟩)
    · obtain ⟨h1, h2, h3, h4⟩ := hih c lp e q hq
      refine ⟨h1, Nat.le_of_lt h2, h3, fun hnd => ?_⟩
      exact h4 ((List.perm_append_singleton _ _).nodup_iff.mpr
        (List.nodup_cons.mpr ⟨hmem, hnd⟩))

/-- The member loop inherits the per-child call property. -/
theorem dMembersGo_calls (db : DDB) (f : Nat) (ih : DExt → List String → DVisitResult)
    (lp : List String) (hih : GoodIH f ih) (ms : List DRankMember) :
    ∀ e q, (e, q) ∈ (dMembersGo db ih lp ms).calls →
      e ∉ q ∧ lp.length ≤ q.length ∧ q.length ≤ lp.length + f ∧
      (lp.Nodup → (q ++ [e]).Nodup) := by
  induction ms with
  | nil => intro e q hq; simp [dMembersGo, DVisitResult.empty] at hq
  | cons m rest ihm =>
      intro e q hq
      rw [dMembersGo, DVisitResult.mem_merge_calls] at hq
      rcases hq with hq | hq
      · by_cases hact : m.active
        · exact dVisitChild_calls f ih lp (db.exts m.extId) hih e q (by simpa [hact] using hq)
        · simp [hact, DVisitResult.empty] at hq
      · exact ihm e q hq

/-- The rank loop inherits the per-child call property. -/
theorem dRanksGo_calls (db : DDB) (f : Nat) (ih : DExt → List String → DVisitResult)
    (lp : List String) (hih : GoodIH f ih) (rs : List (List DRankMember)) :
    ∀ e q, (e, q) ∈ (dRanksGo db ih lp rs).calls →
      e ∉ q ∧ lp.length ≤ q.length ∧ q.length ≤ lp.length + f ∧
      (lp.Nodup → (q ++ [e]).Nodup) := by
  induction rs with
  | nil => intro e q hq; simp [dRanksGo, DVisitResult.empty] at hq
  | cons r rest ihr =>
      intro e q hq
      rw [dRanksGo, DVisitResult.mem_merge_calls] at hq
      rcases hq with hq | hq
      · exact dMembersGo_calls db f ih lp hih r e q hq
      · exact ihr e q hq

/-- `dVisit` satisfies the good-call property at every fuel. -/
theorem dVisit_goodIH (db : DDB) (f : Nat) : GoodIH f (dVisit db f) := by
  induction f with
  | zero => intro node path e q hq; simp [dVisit] at hq
  | succ f ihf =>
      intro node path e q hq
      rw [dVisit] at hq
      unfold dVisitStep at hq
      rw [DVisitResult.mem_merge_calls] at hq
      have key : e ∉ q ∧ (path ++ [node.extension]).length ≤ q.length ∧
          q.length ≤ (path ++ [node.extension]).length + f ∧
          ((path ++ [node.extension]).Nodup → (q ++ [e]).Nodup) := by
        rcases hq with hq | hq
        · rcases hfwd : (if node.etype ≠ ExtType.EXTERNAL ∧
              node.forwarding_mode ≠ FwdMode.DISABLED then
                node.forwarding_extension_id.map db.exts
              else none) with _ | fx
          · rw [hfwd] at hq; simp [DVisitResult.empty] at hq
          · rw [hfwd] at hq
            exact dVisitChild_calls f (dVisit db f) _ fx ihf e q hq
        · exact dRanksGo_calls db f (dVisit db f) _ ihf _ e q hq
      obtain ⟨h1, h2, h3, h4⟩ := key
      simp only [List.length_append, List.length_singleton] at h2 h3
      exact ⟨h1, by omega, by omega, h4⟩

/-- **C5.**  The discovery visitor (a) never recurses into an extension
whose extension-number is already on the current path, and starting from a
duplicate-free path every path in the visit stays duplicate-free (the
discovered subgraph is acyclic); (b) recursion depth is bounded by the fuel
(`max_depth - depth`, i.e. depth never exceeds `max_depth`): every recorded
call's path is longer than the entry path by at least one and at most the
fuel; and (c) with exhausted fuel (`depth >= max_depth`) the visitor marks
the run failed, logs at ERROR on the node, and makes no recursive call. -/
theorem discovery_no_revisit_depth_bound (db : DDB) (f : Nat) (node : DExt)
    (path : List String) :
    (∀ e q, (e, q) ∈ (dVisit db f node path).calls →
      e ∉ q ∧ path.length < q.length ∧ q.length ≤ path.length + f) ∧
    ((path ++ [node.extension]).Nodup →
      ∀ e q, (e, q) ∈ (dVisit db f node path).calls → (q ++ [e]).Nodup) ∧
    (dVisit db 0 node path).failed = true ∧
    (dVisit db 0 node path).errorLog = [node.extension] ∧
    (dVisit db 0 node path).calls = [] := by
  refine ⟨?_, ?_, rfl, rfl, rfl⟩
  · intro e q hq
    obtain ⟨h1, h2, h3, _⟩ := dVisit_goodIH db f node path e q hq
    exact ⟨h1, h2, h3⟩
  · intro hnd e q hq
    exact (dVisit_goodIH db f node path e q hq).2.2.2 hnd

/-- Witness for C5: extension 100 (the excluded caller) calls group 2000
with member 2001, which forwards to 2002; the recorded call into 2001 is
off its path and the extended path stays duplicate-free. -/
theorem discovery_no_revisit_depth_bound_witness :
    "2001" ∉ (["100", "2000"] : List String) ∧
    ((["100", "2000"] : List String) ++ ["2001"]).Nodup := by
  have h := discovery_no_revisit_depth_bound dWitnessDB 10 dWitnessRoot ["100"]
  have hmem : ("2001", ["100", "2000"]) ∈ (dVisit dWitnessDB 10 dWitnessRoot ["100"]).calls := by
    decide
  obtain ⟨h1, -, -⟩ := h.1 "2001" ["100", "2000"] hmem
  exact ⟨h1, h.2.1 (by decide) "2001" ["100", "2000"] hmem⟩

/-- **C7.**  Stage-2 error replies (`stage2.py:48-99`, `127-154`), for a
request carrying `caller` and `called`:

* neither a user nor a trunk matches the (`stage2-`-stripped) called number
  — the message is answered once, unhandled;
* the matched (non-static) user has no registration rows — the reply is
  handled with `error=offline` and `reason=offline`;
* `X-No-Call-Wait` is `"1"` or the user's `call_waiting` is false, and the
  target is busy — or an active-call row exists for (called,
  `X-Eventphone-Id`) — the reply is handled with `error=busy`. -/
theorem stage2_error_paths (db : S2DB) (bc : Option (String → Bool)) (m : Msg)
    (caller called : String)
    (hcaller : m.get? "caller" = some caller)
    (hcalled : m.get? "called" = some called) :
    (stage2LookupTarget db (stripStage2 called) = none →
      stage2RoutingJob db bc m = [(m, false)]) ∧
    (∀ u, stage2LookupTarget db (stripStage2 called) = some u →
      u.utype ≠ "static" → db.locations u.username = [] →
      stage2RoutingJob db bc m =
        [((m.set "error" (some "offline")).set "reason" (some "offline"), true)]) ∧
    (∀ u, stage2LookupTarget db (stripStage2 called) = some u →
      u.utype ≠ "static" → db.locations u.username ≠ [] →
      (((getHeader m "X-No-Call-Wait" = some "1" ∨ u.call_waiting = false) ∧
          stage2TargetBusy bc u = true) ∨
        db.activeCall (stripStage2 called) (getHeader m "X-Eventphone-Id") = true) →
      stage2RoutingJob db bc m = [(m.set "error" (some "busy"), true)]) := by
  refine ⟨?_, ?_, ?_⟩
  · intro hnone
    simp [stage2RoutingJob, hcaller, hcalled, calculateStage2Routing, hnone]
  · intro u hu hstatic hlocs
    simp [stage2RoutingJob, hcaller, hcalled, calculateStage2Routing, hu, hstatic, hlocs]
  · intro u hu hstatic hlocs hcond
    have hlocs' : (db.locations u.username).isEmpty = false := by
      cases hl : db.locations u.username with
      | nil => exact absurd hl hlocs
      | cons a l => simp
    by_cases hbusy : (getHeader m "X-No-Call-Wait" = some "1" ∨ u.call_waiting = false) ∧
        stage2TargetBusy bc u = true
    · simp [stage2RoutingJob, hcaller, hcalled, calculateStage2Routing, hu, hstatic,
        hlocs', hbusy]
    · have hact : db.activeCall (stripStage2 called) (getHeader m "X-Eventphone-Id") = true := by
        rcases hcond with h | h
        · exact absurd h hbusy
        · exact h
      simp [stage2RoutingJob, hcaller, hcalled, calculateStage2Routing, hu, hstatic,
        hlocs', hbusy, hact]

/-- Witness for C7: the three error paths on concrete databases.  `9999`
matches nothing; user `2042` has no registrations; user `2043` (with
`call_waiting = false`) has one registration but is busy. -/
theorem stage2_error_paths_witness :
    (stage2RoutingJob ⟨fun _ => none, fun _ => none, fun _ => [], fun _ _ => false⟩ none
        ⟨[("caller", some "4748"), ("called", some "9999")], none⟩ =
      [(⟨[("caller", some "4748"), ("called", some "9999")], none⟩, false)]) ∧
    (stage2RoutingJob
        ⟨fun n => if n = "2042" then some ⟨"2042", "user", false, true, 0⟩ else none,
          fun _ => none, fun _ => [], fun _ _ => false⟩ none
        ⟨[("caller", some "4748"), ("called", some "2042")], none⟩ =
      [(Msg.set (Msg.set ⟨[("caller", some "4748"), ("called", some "2042")], none⟩
          "error" (some "offline")) "reason" (some "offline"), true)]) ∧
    (stage2RoutingJob
        ⟨fun n => if n = "2043" then some ⟨"2043", "user", false, false, 1⟩ else none,
          fun _ => none, fun n => if n = "2043" then [⟨"sip/sip:2043@x", "local"⟩] else [],
          fun _ _ => false⟩ (some (fun _ => true))
        ⟨[("caller", some "4748"), ("called", some "2043")], none⟩ =
      [(Msg.set ⟨[("caller", some "4748"), ("called", some "2043")], none⟩
          "error" (some "busy"), true)]) := by
  refine ⟨?_, ?_, ?_⟩
  · exact (stage2_error_paths _ _ _ "4748" "9999" (by decide) (by decide)).1 (by decide)
  · exact (stage2_error_paths _ _ _ "4748" "2042" (by decide) (by decide)).2.1
      ⟨"2042", "user", false, true, 0⟩ (by decide) (by decide) (by decide)
  · exact (stage2_error_paths _ _ _ "4748" "2043" (by decide) (by decide)).2.2
      ⟨"2043", "user", false, false, 1⟩ (by decide) (by decide) (by decide)
      (Or.inl ⟨Or.inr rfl, rfl⟩)

/-- **C6, counterexample.**  After ringback injection the reply contains a
non-separator Call Target *without* the default parameters: on a local
simple extension with a ringback file, the fork legs are the
`wave/play/...` ringback target — whose parameter dict has no
`x_eventphone_id` — and the original leg, which does carry the run uuid.
(`_make_ringback_target` at `routing_tree.py:110-119` stamps only the
`fork.*` parameters, and `_populate_parameters_global` updates only
envelope targets.) -/
theorem default_params_counterexample :
    (routingTreeCalculate envT 2 treeC6 "2002" (some "ringback/2002") [] none none none).map
        (fun p => p.1.fork_targets.map (fun tg =>
          (tg.target, tg.is_separator, tg.parameters.get? "x_eventphone_id"))) =
      some [("wave/play/ringback/2002", false, none),
        ("lateroute/2002", false, some "u")] := by
  decide

/-- **C6, amended.**  In every routing result returned by Stage-1 (after
ringback injection and parameter population, and provided the populated
caller parameters do not themselves use the reserved uuid keys): separator
targets carry no parameters at all; every non-separator Call Target *other
than the injected ringback leg* carries both `x_eventphone_id` and
`osip_X-Eventphone-Id` with the same run-uuid value; and the envelope
target carries them as well — so all stamped targets of one reply share one
value. -/
theorem default_params_on_targets (env : GenEnv) (fuel : Nat) (t : GTree)
    (dialed : String) (rb : Option String) (sp : Params)
    (tn tsn sn : Option String) (r : IntermediateRoutingResult) (cache : RouteCache)
    (h : routingTreeCalculate env fuel t dialed rb sp tn tsn sn = some (r, cache))
    (hps1 : "x_eventphone_id" ∉
      (populatedSourceTargetParams sp t.info.etype tn tsn sn).map Prod.fst)
    (hps2 : "osip_X-Eventphone-Id" ∉
      (populatedSourceTargetParams sp t.info.etype tn tsn sn).map Prod.fst) :
    (∀ tg ∈ r.fork_targets, tg.is_separator = true → tg.parameters = []) ∧
    (∀ tg ∈ r.fork_targets, tg.is_separator = false →
      (∀ p, rb = some p → tg.target ≠ "wave/play/" ++ p) →
      uuidStamped env tg.parameters) ∧
    (∀ tgt, r.target = some tgt → uuidStamped env tgt.parameters) := by
  unfold routingTreeCalculate at h
  rcases hmain : calculateMainRouting env fuel t dialed with _ | ⟨r0, cache0⟩
  · rw [hmain] at h
    exact Option.noConfusion h
  · rw [hmain] at h
    dsimp only at h
    obtain ⟨hresOK, hcache0, -⟩ := calculateMainRouting_spec env fuel t dialed r0 cache0 hmain
    rcases hrb : provideRingback rb r0 with _ | ⟨r1, conv⟩
    · rw [hrb] at h
      exact Option.noConfusion h
    · rw [hrb] at h
      dsimp only at h
      obtain ⟨hP1sep, hP1uuid, hP1env, hPconv⟩ :=
        provideRingback_spec env rb r0 r1 conv hrb hresOK
      set ps := populatedSourceTargetParams sp t.info.etype tn tsn sn with hpsdef
      have hr : r = (if conv = true then
          syncRingbackAlias (populateParametersGlobal ps r1 cache0).1
        else (populateParametersGlobal ps r1 cache0).1) :=
        (congrArg Prod.fst (Option.some.inj h)).symm
      have hspec := populate_updT_spec env ps cache0 hcache0 hps1 hps2
      by_cases hconv : conv = true
      · obtain ⟨p, t0, hrbp, ht0OK, hr1tgt, hr1fork⟩ := hPconv hconv
        rw [if_pos hconv] at hr
        have hr2 : (populateParametersGlobal ps r1 cache0).1 =
            ⟨r1.type, some (updateTargetParams ⟨"fork", t0.parameters⟩ ps),
              [(if (cache0.map Prod.fst).contains (makeRingbackTarget p).target then
                  updateTargetParams (makeRingbackTarget p) ps else makeRingbackTarget p),
                (if (cache0.map Prod.fst).contains t0.target then
                  updateTargetParams t0 ps else t0)]⟩ := by
          unfold populateParametersGlobal
          dsimp only
          rw [hr1tgt, hr1fork]
          rfl
        rw [hr2] at hr
        unfold syncRingbackAlias at hr
        dsimp only at hr
        subst hr
        obtain ⟨hrTgt, hrSep, hrSepEq, hrUuid⟩ := hspec (makeRingbackTarget p)
        obtain ⟨htTgt, htSep, htSepEq, htUuid⟩ := hspec t0
        have hEuuid : uuidStamped env
            (updateTargetParams ⟨"fork", t0.parameters⟩ ps).parameters :=
          updateTargetParams_uuid env ps ⟨"fork", t0.parameters⟩ hps1 hps2 ht0OK.2
        refine ⟨fun tg hm hs => ?_, fun tg hm hns hexcl => ?_, fun tgt ht => ?_⟩
        · rcases List.mem_cons.mp hm with hm | hm
          · rw [hm] at hs
            rw [hrSep, ringback_not_separator p] at hs
            exact Bool.noConfusion hs
          · rw [List.mem_singleton.mp hm] at hs
            have : CallTarget.is_separator ⟨(if (cache0.map Prod.fst).contains t0.target then
                updateTargetParams t0 ps else t0).target,
                (updateTargetParams ⟨"fork", t0.parameters⟩ ps).parameters⟩ =
                t0.is_separator := by
              rw [htTgt]
              rfl
            rw [this, ht0OK.1] at hs
            exact Bool.noConfusion hs
        · rcases List.mem_cons.mp hm with hm | hm
          · exfalso
            apply hm ▸ hexcl p hrbp
            rw [hrTgt]
            rfl
          · rw [List.mem_singleton.mp hm]
            exact hEuuid
        · cases ht
          exact hEuuid
      · rw [if_neg hconv] at hr
        have hr2fork : r.fork_targets = r1.fork_targets.map (fun tg =>
            if (cache0.map Prod.fst).contains tg.target then updateTargetParams tg ps
            else tg) := by
          rw [hr]
          rfl
        have hr2tgt : r.target = r1.target.map (fun tg => updateTargetParams tg ps) := by
          rw [hr]
          rfl
        refine ⟨fun tg hm hs => ?_, fun tg hm hns hexcl => ?_, fun tgt ht => ?_⟩
        · rw [hr2fork] at hm
          obtain ⟨t1, htm, hteq⟩ := List.mem_map.mp hm
          obtain ⟨hT, hS, hSE, hU⟩ := hspec t1
          have hsept1 : t1.is_separator = true := by
            rw [← hS, hteq]
            exact hs
          rw [← hteq, hSE hsept1]
          exact hP1sep t1 htm hsept1
        · rw [hr2fork] at hm
          obtain ⟨t1, htm, hteq⟩ := List.mem_map.mp hm
          obtain ⟨hT, hS, hSE, hU⟩ := hspec t1
          have hnsept1 : t1.is_separator = false := by
            rw [← hS, hteq]
            exact hns
          have hexcl1 : ∀ p, rb = some p → t1.target ≠ "wave/play/" ++ p := by
            intro p hp
            rw [← hT, hteq]
            exact hexcl p hp
          rw [← hteq]
          exact hU (hP1uuid t1 htm hnsept1 hexcl1)
        · rw [hr2tgt] at ht
          obtain ⟨t1, ht1, hteq⟩ := Option.map_eq_some'.mp ht
          rw [← hteq]
          exact updateTargetParams_uuid env ps t1 hps1 hps2 (hP1env t1 ht1)

/-- Witness for C6 (amended): routing a plain local simple extension
(caller parameters `caller=4748`, called name `PoC`) yields an envelope
stamped with both uuid parameters. -/
theorem default_params_on_targets_witness :
    uuidStamped envT
      (updateTargetParams (makeCalltarget envT "lateroute/2002" [("eventphone_stage2", "1")])
        [("caller", "4748"), ("calledname", "PoC")]).parameters := by
  have h : routingTreeCalculate envT 2 treeC6 "2002" none [("caller", "4748")]
      (some "PoC") none none = some
      (⟨IRRType.SIMPLE,
        some (updateTargetParams (makeCalltarget envT "lateroute/2002"
          [("eventphone_stage2", "1")]) [("caller", "4748"), ("calledname", "PoC")]),
        []⟩, []) := by decide
  exact (default_params_on_targets envT 2 treeC6 "2002" none [("caller", "4748")]
    (some "PoC") none none _ _ h (by decide) (by decide)).2.2 _ rfl

/-- **C10.**  Caching a Simple intermediate result is a no-op
(`routing_tree.py:348-350`), and every value the visitor ever stores in the
`_lateroute_cache` is a Fork keyed by its envelope target string. -/
theorem cache_plan_only_forks (env : GenEnv) :
    (∀ (c : RouteCache) (r : IntermediateRoutingResult), r.is_simple = true →
      cacheIntermediateResult c r = some c) ∧
    (∀ f t path cache r c', visitCalc env f t path cache = some (r, c') →
      CacheOK env cache →
      ∀ k ir, (k, ir) ∈ c' → ir.type = IRRType.FORK ∧
        ∃ tgt, ir.target = some tgt ∧ tgt.target = k) := by
  constructor
  · intro c r h
    unfold cacheIntermediateResult
    rw [if_pos h]
  · intro f t path cache r c' h hc k ir hmem
    obtain ⟨-, hcache⟩ := visitCalc_spec env f t path cache r c' h hc
    obtain ⟨h1, h2, -⟩ := hcache k ir hmem
    exact ⟨h1, h2⟩

/-- Witness for C10: caching a concrete Simple result returns the cache
unchanged, and the sub-plan cached for the inner group of `treeC10` is a
Fork keyed by its `lateroute/stage1-u-1-2` envelope. -/
theorem cache_plan_only_forks_witness :
    (cacheIntermediateResult [("k", ⟨IRRType.FORK, some ⟨"k", []⟩, [⟨"x", []⟩]⟩)]
        (IntermediateRoutingResult.create (some ⟨"lateroute/2005", []⟩) none) =
      some [("k", ⟨IRRType.FORK, some ⟨"k", []⟩, [⟨"x", []⟩]⟩)]) ∧
    ((visitCalc envT 4 treeC10 [] []).map (fun p =>
        p.2.map (fun kv => (kv.1, kv.2.type, kv.2.target.map CallTarget.target))) =
      some [("lateroute/stage1-u-1-2", IRRType.FORK, some "lateroute/stage1-u-1-2")]) := by
  constructor
  · exact (cache_plan_only_forks envT).1 _ _ (by decide)
  · decide

/-- **C1, counterexample.**  Two clauses of the claim fail on the code.
On `treeC1a` (group, rank 2 holds only an inactive member) the emitted fork
list is `[lateroute/1001, |drop=5, |drop=7, lateroute/1002]` — entries 1 and
2 are *consecutive separators* (the empty-rank cleanup only removes a
trailing bare `|`, not timed separators).  On `treeC1b` (memberless group
with an on-busy forward) the list is `[|, lateroute/1004]` — the first
non-separator entry is the *forwarding* target, neither a Multiring/Simple
self-target (the root is a Group) nor a member target (there are none). -/
theorem fork_list_shape_counterexample :
    ((visitCalc envT 3 treeC1a [] []).map (fun p =>
        p.1.fork_targets.map (fun t => (t.target, t.is_separator))) =
      some [("lateroute/1001", false), ("|drop=5", true), ("|drop=7", true),
        ("lateroute/1002", false)]) ∧
    ((visitCalc envT 3 treeC1b [] []).map (fun p =>
        p.1.fork_targets.map (fun t => (t.target, t.is_separator))) =
      some [("|", true), ("lateroute/1004", false)]) := by
  exact ⟨by decide, by decide⟩

/-- **C1, amended.**  For every Fork the generator emits: the last element
is never the bare separator `|`; and when the root's kind is Multiring or
Simple (and it is not an immediate forward, which would defer to another
node), the *first* entry of the fork-target list is the root's own simple
routing target (up to the on-busy parameter stamp, which preserves the
target string).  Consecutive timed separators can occur (see the
counterexample), and for Group roots the first non-separator entry may also
be the forwarding target. -/
theorem fork_list_shape (env : GenEnv) (f : Nat) (t : GTree) (path : List Nat)
    (cache : RouteCache) (r : IntermediateRoutingResult) (c' : RouteCache)
    (h : visitCalc env f t path cache = some (r, c'))
    (hc : CacheOK env cache) (hF : r.type = IRRType.FORK) :
    (∀ l, r.fork_targets.getLast? = some l → l.target ≠ "|") ∧
    ((t.info.etype = ExtType.MULTIRING ∨ t.info.etype = ExtType.SIMPLE) →
      t.info.immediate_forward = false →
      r.fork_targets.head?.map CallTarget.target =
        (generateSimpleRoutingTarget env t.info).map CallTarget.target) := by
  constructor
  · exact ((visitCalc_spec env f t path cache r c' h hc).1.2.2.2 hF).2
  · intro htype himm
    cases f with
    | zero => exact Option.noConfusion h
    | succ f =>
        rw [visitCalc] at h
        obtain ⟨i, ranks, fwd⟩ := t
        have hi : GTree.info (GTree.node i ranks fwd) = i := rfl
        rw [hi] at htype himm ⊢
        unfold stepCalc at h
        dsimp only at h
        rw [if_neg (by rw [himm]; exact Bool.noConfusion)] at h
        by_cases hsimple : nodeHasSimpleRouting i ranks = true
        · rw [if_pos hsimple] at h
          rcases hg : generateSimpleRoutingTarget env i with _ | st
          · rw [hg] at h
            exact Option.noConfusion h
          · rw [hg] at h
            dsimp only at h
            have hr : r = IntermediateRoutingResult.create (some st) none :=
              (congrArg Prod.fst (Option.some.inj h)).symm
            rw [hr] at hF
            exact IRRType.noConfusion hF
        · rw [if_neg hsimple] at h
          rcases hrl : ranksLoop (fun s c => visitCalc env f s (path ++ [i.id]) c)
              i.forwarding_delay ranks ⟨[], 0, i.forwarding_mode, cache⟩ with _ | st
          · rw [hrl] at h
            exact Option.noConfusion h
          · rw [hrl] at h
            dsimp only at h
            rcases hmi : multiringInsert env i ranks st.fts with _ | fts1
            · rw [hmi] at h
              exact Option.noConfusion h
            · rw [hmi] at h
              dsimp only at h
              rcases hfp : fwdPhase (fun s c => visitCalc env f s (path ++ [i.id]) c)
                  i st.fm st.acc fwd (onBusyStamp st.fm fts1) st.cache with _ | ⟨fts3, cache3⟩
              · rw [hfp] at h
                exact Option.noConfusion h
              · rw [hfp] at h
                dsimp only at h
                have hr : r = IntermediateRoutingResult.create
                    (some (makeCalltarget env
                      (generateDeferredRoutestring env (path ++ [i.id])) [])) (some fts3) :=
                  (congrArg Prod.fst (Option.some.inj h)).symm
                obtain ⟨st0, hg, hhead1⟩ := multiringInsert_head env i ranks st.fts fts1 hmi htype
                have hhead2 : (onBusyStamp st.fm fts1).head?.map CallTarget.target =
                    some st0.target := by
                  have hmt := onBusyStamp_map_target st.fm fts1
                  have hh : ((onBusyStamp st.fm fts1).map CallTarget.target).head? =
                      ((fts1.map CallTarget.target)).head? := by rw [hmt]
                  rw [List.head?_map, List.head?_map] at hh
                  rw [hh, hhead1]
                  rfl
                have hne2 : onBusyStamp st.fm fts1 ≠ [] := by
                  intro hnil
                  rw [hnil] at hhead2
                  exact Option.noConfusion hhead2
                obtain ⟨a, l2, ha2⟩ := List.exists_cons_of_ne_nil hne2
                obtain ⟨suffix, hsuffix⟩ := fwdPhase_append _ i st.fm st.acc fwd _ st.cache
                  fts3 cache3 hfp
                have hfts3 : fts3 = a :: (l2 ++ suffix) := by
                  rw [hsuffix, ha2]
                  rfl
                have hlen : fts3.length > 0 := by
                  rw [hfts3]
                  exact Nat.succ_pos _
                have hfork : r.fork_targets = fts3 := by
                  rw [hr]
                  unfold IntermediateRoutingResult.create
                  dsimp only
                  rw [if_pos hlen]
                have hatgt : a.target = st0.target := by
                  rw [ha2] at hhead2
                  exact Option.some.inj hhead2
                rw [hfork, hfts3, hg]
                show some a.target = some st0.target
                rw [hatgt]

/-- Witness for C1 (amended): on the concrete multiring `treeC1w` the head
of the fork list is the multiring's own `lateroute/2001` target, and the
last element is not the bare separator. -/
theorem fork_list_shape_witness :
    ((⟨IRRType.FORK,
        some (makeCalltarget envT (generateDeferredRoutestring envT [1]) []),
        [makeCalltarget envT "lateroute/2001" [("eventphone_stage2", "1")],
          makeCalltarget envT "lateroute/2005" [("eventphone_stage2", "1")]]⟩ :
          IntermediateRoutingResult).fork_targets.head?.map CallTarget.target =
      (generateSimpleRoutingTarget envT treeC1w.info).map CallTarget.target) ∧
    (makeCalltarget envT "lateroute/2005" [("eventphone_stage2", "1")]).target ≠ "|" := by
  have h : visitCalc envT 3 treeC1w [] [] = some
      (⟨IRRType.FORK,
        some (makeCalltarget envT (generateDeferredRoutestring envT [1]) []),
        [makeCalltarget envT "lateroute/2001" [("eventphone_stage2", "1")],
          makeCalltarget envT "lateroute/2005" [("eventphone_stage2", "1")]]⟩,
        []) := by decide
  have hcache : CacheOK envT [] := fun k ir hmem => absurd hmem (List.not_mem_nil _)
  obtain ⟨hlast, hhead⟩ := fork_list_shape envT 3 treeC1w [] [] _ _ h hcache (by decide)
  exact ⟨hhead (Or.inl (by decide)) (by decide),
    hlast (makeCalltarget envT "lateroute/2005" [("eventphone_stage2", "1")]) (by decide)⟩

/-- **C2, counterexample.**  `accumulated_delay` also counts `|next=`
separators: on `treeC2` (forwarding delay 10, a `|next=4` rank before the
forward) the emitted list is
`[lateroute/1001, |next=4, lateroute/1002, |drop=6, lateroute/2042]`, so the
`|drop=` delays preceding the forward target sum to 6, not to the
forwarding delay 10. -/
theorem forwarding_delay_wall_counterexample :
    ((visitCalc envT 3 treeC2 [] []).map (fun p =>
        p.1.fork_targets.map CallTarget.target) =
      some ["lateroute/1001", "|next=4", "lateroute/1002", "|drop=6", "lateroute/2042"]) ∧
    ((visitCalc envT 3 treeC2 [] []).map (fun p =>
        dropDelaysSum p.1.fork_targets.dropLast) = some 6) ∧
    treeC2.info.forwarding_delay = some 10 ∧ (6 : Int) ≠ 10 := by
  exact ⟨by decide, by decide, rfl, by decide⟩

/-- **C2, amended.**  When the rank loop finishes with forwarding still
enabled, the generator appends `|drop=<forwarding_delay - accumulated_delay>`
directly before the forward target (`routing_tree.py:472-478`), where the
accumulated delay sums the delays of *all* timed (`drop` and `next`) rank
separators processed; the plain sum of `|drop=` delays preceding the
forward target therefore equals `forwarding_delay` only when no `next` rank
and no early break intervened.  The forward target itself is last and is
not a separator. -/
theorem forwarding_delay_wall (env : GenEnv) (f : Nat) (i : GInfo)
    (ranks : List (RankMode × Option Int × List (RankMemberType × Bool × GTree)))
    (fwd : Option GTree) (path : List Nat) (cache : RouteCache)
    (r : IntermediateRoutingResult) (c' : RouteCache) (st : RankLoopSt) (fd : Int)
    (h : visitCalc env (f + 1) (GTree.node i ranks fwd) path cache = some (r, c'))
    (himm : i.immediate_forward = false)
    (hsimple : nodeHasSimpleRouting i ranks = false)
    (hrl : ranksLoop (fun s c => visitCalc env f s (path ++ [i.id]) c) i.forwarding_delay
      ranks ⟨[], 0, i.forwarding_mode, cache⟩ = some st)
    (hfm : st.fm = FwdMode.ENABLED)
    (hfd : i.forwarding_delay = some fd)
    (hc : CacheOK env cache) :
    r.fork_targets.dropLast.getLast? =
      some ⟨"|drop=" ++ toString (fd - st.acc), []⟩ ∧
    (∀ l, r.fork_targets.getLast? = some l → l.is_separator = false) := by
  rw [visitCalc] at h
  unfold stepCalc at h
  dsimp only at h
  rw [if_neg (by rw [himm]; exact Bool.noConfusion)] at h
  rw [if_neg (by rw [hsimple]; exact Bool.noConfusion)] at h
  rw [hrl] at h
  dsimp only at h
  rcases hmi : multiringInsert env i ranks st.fts with _ | fts1
  · rw [hmi] at h
    exact Option.noConfusion h
  · rw [hmi] at h
    dsimp only at h
    rcases hfp : fwdPhase (fun s c => visitCalc env f s (path ++ [i.id]) c)
        i st.fm st.acc fwd (onBusyStamp st.fm fts1) st.cache with _ | ⟨fts3, cache3⟩
    · rw [hfp] at h
      exact Option.noConfusion h
    · rw [hfp] at h
      dsimp only at h
      have hr : r = IntermediateRoutingResult.create
          (some (makeCalltarget env
            (generateDeferredRoutestring env (path ++ [i.id])) [])) (some fts3) :=
        (congrArg Prod.fst (Option.some.inj h)).symm
      rw [hfm] at hfp
      have hinit : FtsOK env ([] : List CallTarget) :=
        ⟨fun t ht => absurd ht (List.not_mem_nil t), fun l hl => Option.noConfusion hl⟩
      obtain ⟨hcSt, -⟩ := ranksLoop_spec env _
        (fun s c rr cc hh hcc => visitCalc_spec env f s (path ++ [i.id]) c rr cc hh hcc)
        i.forwarding_delay ranks _ st hrl hc hinit
      obtain ⟨tgt, hshape, htgtOK⟩ := fwdPhase_enabled_shape env _
        (fun s c rr cc hh hcc => visitCalc_spec env f s (path ++ [i.id]) c rr cc hh hcc)
        i st.acc fwd _ st.cache fts3 cache3 fd hfp hfd hcSt
      have hlen : fts3.length > 0 := by
        rw [hshape]
        simp
      have hfork : r.fork_targets = fts3 := by
        rw [hr]
        unfold IntermediateRoutingResult.create
        dsimp only
        rw [if_pos hlen]
      constructor
      · rw [hfork, hshape]
        have hsplit : onBusyStamp FwdMode.ENABLED fts1 ++
            [(⟨"|drop=" ++ toString (fd - st.acc), []⟩ : CallTarget), tgt] =
            (onBusyStamp FwdMode.ENABLED fts1 ++
              [(⟨"|drop=" ++ toString (fd - st.acc), []⟩ : CallTarget)]) ++ [tgt] := by
          simp
        rw [hsplit, List.dropLast_concat, List.getLast?_concat]
      · intro l hl
        rw [hfork, hshape] at hl
        rw [getLast?_append_right _ _ (List.cons_ne_nil _ _),
          List.getLast?_cons_cons] at hl
        have htl : tgt = l := by simpa using hl
        rw [← htl]
        exact htgtOK.1

/-- Witness for C2 (amended): on `treeC2w` (forwarding delay 20, one
`|drop=5` rank) the separator before the forward target is `|drop=15` and
the final element is the forward target. -/
theorem forwarding_delay_wall_witness :
    ((⟨IRRType.FORK,
        some (makeCalltarget envT (generateDeferredRoutestring envT [1]) []),
        [makeCalltarget envT "lateroute/1001" [("eventphone_stage2", "1")],
          CallTarget.mk "|drop=5" [],
          makeCalltarget envT "lateroute/1002" [("eventphone_stage2", "1")],
          CallTarget.mk "|drop=15" [],
          makeCalltarget envT "lateroute/2042" [("eventphone_stage2", "1")]]⟩ :
          IntermediateRoutingResult).fork_targets.dropLast.getLast? =
      some ⟨"|drop=" ++ toString ((20 : Int) - 5), []⟩) ∧
    (makeCalltarget envT "lateroute/2042" [("eventphone_stage2", "1")]).is_separator =
      false := by
  have h : visitCalc envT 3 treeC2w [] [] = some
      (⟨IRRType.FORK,
        some (makeCalltarget envT (generateDeferredRoutestring envT [1]) []),
        [makeCalltarget envT "lateroute/1001" [("eventphone_stage2", "1")],
          CallTarget.mk "|drop=5" [],
          makeCalltarget envT "lateroute/1002" [("eventphone_stage2", "1")],
          CallTarget.mk "|drop=15" [],
          makeCalltarget envT "lateroute/2042" [("eventphone_stage2", "1")]]⟩,
        []) := by decide
  have hcache : CacheOK envT [] := fun k ir hmem => absurd hmem (List.not_mem_nil _)
  have hrl : ranksLoop (fun s c => visitCalc envT 2 s [1] c)
      (GInfo.forwarding_delay ⟨1, "2099", ExtType.GROUP, FwdMode.ENABLED, some 20, none⟩)
      [(RankMode.DEFAULT, none, [(RankMemberType.DEFAULT, true, extNode "1001" 2)]),
       (RankMode.DROP, some 5, [(RankMemberType.DEFAULT, true, extNode "1002" 3)])]
      ⟨[], 0, FwdMode.ENABLED, []⟩ = some
      ⟨[makeCalltarget envT "lateroute/1001" [("eventphone_stage2", "1")],
        CallTarget.mk "|drop=5" [],
        makeCalltarget envT "lateroute/1002" [("eventphone_stage2", "1")]], 5,
        FwdMode.ENABLED, []⟩ := by decide
  obtain ⟨h1, h2⟩ := forwarding_delay_wall envT 2
    ⟨1, "2099", ExtType.GROUP, FwdMode.ENABLED, some 20, none⟩
    [(RankMode.DEFAULT, none, [(RankMemberType.DEFAULT, true, extNode "1001" 2)]),
     (RankMode.DROP, some 5, [(RankMemberType.DEFAULT, true, extNode "1002" 3)])]
    (some (extNode "2042" 5)) [] [] _ _
    ⟨[makeCalltarget envT "lateroute/1001" [("eventphone_stage2", "1")],
      CallTarget.mk "|drop=5" [],
      makeCalltarget envT "lateroute/1002" [("eventphone_stage2", "1")]], 5,
      FwdMode.ENABLED, []⟩ 20 h (by decide) (by decide) hrl rfl rfl hcache
  exact ⟨h1, h2 (makeCalltarget envT "lateroute/2042" [("eventphone_stage2", "1")])
    (by decide)⟩

end Ywsd
